import Mathlib

/-!
Shallow embedding of the frizinak/libym music library core
(collection: songs, playlists, queue; persistence; player; mpv backend)
together with proofs about the embedded operations.

Machine integers are modelled as `Nat`/`Int` with explicit `% 2^32`
where Go performs a `uint32` conversion; Go float64 values are modelled
as rationals; fallible Go code returns `Option`/`Except`.
-/

deriving instance DecidableEq for Except

namespace Libym

/-- A song: namespace, id and title as in the `collection.Song` interface,
together with the data backing `Local()`, `File()` and `URL()`
(the latter two modelled as precomputed results since they are pure
per-song lookups from the player's point of view). -/
structure Song where
  ns : String
  id : String
  title : String
  isLocal : Bool := true
  fileRes : Except String String := Except.ok ""
  urlRes : Except String String := Except.ok ""
deriving Repr, DecidableEq

/-- `GlobalID` from collection.go: `fmt.Sprintf("%s-%s", i.NS(), i.ID())`
(the per-namespace map in the source is only a memoisation cache of this
string and never changes its value). -/
def GlobalID (s : Song) : String := s.ns ++ "-" ++ s.id

/-- `Playlist.Add(s Song, reappend bool)` from collection.go, acting on the
ordered `songs` slice: scan for an entry with the same `GlobalID`;
if one is found and `reappend` is false, return unchanged; if one is found
and `reappend` is true, remove that entry and append it (the found entry,
not the argument) at the end; otherwise append the argument at the end. -/
def playlistAdd (s : Song) (reappend : Bool) : List Song → List Song
  | [] => [s]
  | song :: rest =>
    if !reappend ∧ GlobalID song = GlobalID s then song :: rest
    else if GlobalID song = GlobalID s then rest ++ [song]
    else song :: playlistAdd s reappend rest

end Libym

namespace Libym

theorem playlistAdd_not_mem (s : Song) (re : Bool) :
    ∀ songs : List Song, GlobalID s ∉ songs.map GlobalID →
      playlistAdd s re songs = songs ++ [s] := by
  intro songs
  induction songs with
  | nil => intro _; rfl
  | cons a rest ih =>
    intro h
    have ha : GlobalID a ≠ GlobalID s := by
      intro he
      exact h (by simp [he])
    have hrest : GlobalID s ∉ rest.map GlobalID := by
      intro hm
      exact h (by simp [hm])
    simp [playlistAdd, ha, ih hrest]

theorem playlistAdd_mem_false (s : Song) :
    ∀ (l1 : List Song) (t : Song) (l2 : List Song),
      GlobalID s ∉ l1.map GlobalID → GlobalID t = GlobalID s →
      playlistAdd s false (l1 ++ t :: l2) = l1 ++ t :: l2 := by
  intro l1
  induction l1 with
  | nil =>
    intro t l2 _ ht
    simp [playlistAdd, ht]
  | cons a rest ih =>
    intro t l2 h ht
    have ha : GlobalID a ≠ GlobalID s := by
      intro he
      exact h (by simp [he])
    have hrest : GlobalID s ∉ rest.map GlobalID := by
      intro hm
      exact h (by simp [hm])
    simp [playlistAdd, ha, ih t l2 hrest ht]

theorem playlistAdd_mem_true (s : Song) :
    ∀ (l1 : List Song) (t : Song) (l2 : List Song),
      GlobalID s ∉ l1.map GlobalID → GlobalID t = GlobalID s →
      playlistAdd s true (l1 ++ t :: l2) = l1 ++ l2 ++ [t] := by
  intro l1
  induction l1 with
  | nil =>
    intro t l2 _ ht
    simp [playlistAdd, ht]
  | cons a rest ih =>
    intro t l2 h ht
    have ha : GlobalID a ≠ GlobalID s := by
      intro he
      exact h (by simp [he])
    have hrest : GlobalID s ∉ rest.map GlobalID := by
      intro hm
      exact h (by simp [hm])
    simp [playlistAdd, ha, ih t l2 hrest ht]

theorem playlistAdd_nodup (s : Song) (re : Bool) (songs : List Song)
    (h : (songs.map GlobalID).Nodup) :
    ((playlistAdd s re songs).map GlobalID).Nodup := by
  by_cases hm : GlobalID s ∈ songs.map GlobalID
  · rcases List.mem_map.mp hm with ⟨t, htmem, ht⟩
    rcases List.append_of_mem htmem with ⟨l1, l2, rfl⟩
    have hl1 : GlobalID s ∉ l1.map GlobalID := by
      intro hc
      have := h
      rw [List.map_append, List.map_cons, List.nodup_append] at this
      exact this.2.2 hc (by simp [ht])
    cases re with
    | false => rw [playlistAdd_mem_false s l1 t l2 hl1 ht]; exact h
    | true =>
      rw [playlistAdd_mem_true s l1 t l2 hl1 ht]
      have hp1 : (l1 ++ t :: l2).Perm (t :: (l1 ++ l2)) := List.perm_middle
      have hp2 : (t :: (l1 ++ l2)).Perm (l1 ++ l2 ++ [t]) :=
        (List.perm_append_singleton t (l1 ++ l2)).symm
      exact (List.Perm.map GlobalID (hp1.trans hp2)).nodup h
  · rw [playlistAdd_not_mem s re songs hm]
    rw [List.map_append]
    refine List.Nodup.append h (by simp) ?_
    intro a ha hb
    simp at hb
    rw [hb] at ha
    exact hm ha

/-- A sample song used to instantiate theorems on concrete inputs. -/
def exA : Song := { ns := "yt", id := "aaa", title := "song a" }

/-- A second sample song with a distinct GlobalID. -/
def exB : Song := { ns := "yt", id := "bbb", title := "song b" }

/-- A third sample song with a distinct GlobalID. -/
def exC : Song := { ns := "yt", id := "ccc", title := "song c" }

end Libym

namespace Libym

/-- C5 counterexample: re-adding a song already present with
`reappend = false` leaves the playlist unchanged; the existing entry is
not relocated to the end, contradicting the claim that re-adding an
existing song always relocates it to the end of the playlist order. -/
theorem claim_C5_counterexample :
    playlistAdd exA false [exA, exB] = [exA, exB] ∧
      playlistAdd exA false [exA, exB] ≠ [exB, exA] := by
  decide

/-- C5 (amended): on a playlist whose GlobalIDs are duplicate-free,
`Playlist.Add(s, reappend)` never produces a duplicate GlobalID; a song
whose GlobalID is absent is appended at the end; a song whose GlobalID is
already present leaves the playlist unchanged when `reappend` is false,
and relocates the existing entry to the end when `reappend` is true. -/
theorem claim_C5 (s : Song) (re : Bool) (songs : List Song)
    (hnodup : (songs.map GlobalID).Nodup) :
    ((playlistAdd s re songs).map GlobalID).Nodup ∧
      (GlobalID s ∉ songs.map GlobalID → playlistAdd s re songs = songs ++ [s]) ∧
      (∀ l1 t l2, songs = l1 ++ t :: l2 → GlobalID t = GlobalID s →
        playlistAdd s false songs = songs ∧
          playlistAdd s true songs = l1 ++ l2 ++ [t]) := by
  refine ⟨playlistAdd_nodup s re songs hnodup, ?_, ?_⟩
  · intro h
    exact playlistAdd_not_mem s re songs h
  · intro l1 t l2 hsplit ht
    have hl1 : GlobalID s ∉ l1.map GlobalID := by
      intro hc
      rw [hsplit, List.map_append, List.map_cons] at hnodup
      rw [List.nodup_append] at hnodup
      exact hnodup.2.2 hc (by simp [ht])
    subst hsplit
    exact ⟨playlistAdd_mem_false s l1 t l2 hl1 ht,
      playlistAdd_mem_true s l1 t l2 hl1 ht⟩

/-- C5 witness: the amended theorem applied to the concrete playlist
`[exA, exB]` with `s = exA`. -/
theorem claim_C5_witness :
    ((playlistAdd exA true [exA, exB]).map GlobalID).Nodup ∧
      playlistAdd exA true [exA, exB] = [] ++ [exB] ++ [exA] :=
  ⟨(claim_C5 exA true [exA, exB] (by decide)).1,
    ((claim_C5 exA true [exA, exB] (by decide)).2.2 [] exA [exB] rfl rfl).2⟩

/-- A cell of the intrusive doubly-linked list backing `Queue`
(queue.go): the head sentinel (`first` flag), a real item carrying a
`Song`, or the tail sentinel (`last` flag). -/
inductive Cell where
  | head : Cell
  | item : Song → Cell
  | tail : Cell
deriving Repr, DecidableEq

/-- The `last` flag of a queue cell. -/
def Cell.isLast : Cell → Bool
  | Cell.tail => true
  | _ => false

/-- The `first` flag of a queue cell. -/
def Cell.isFirst : Cell → Bool
  | Cell.head => true
  | _ => false

/-- The `Queue` of queue.go. A well-formed queue is the chain
head-sentinel, real items, tail-sentinel; `items` lists the real items in
chain order. Cell identity is represented by extended position:
0 is the head sentinel, k (1-based) the k-th real item, and
`items.length + 1` the tail sentinel. `cur` is the `current` pointer:
`none` for Go `nil`, otherwise the extended position of the node it
points at. -/
structure Queue where
  items : List Song
  cur : Option Nat
deriving Repr, DecidableEq

/-- The physical cell chain of a queue, from head sentinel to tail
sentinel. -/
def Queue.cells (q : Queue) : List Cell :=
  Cell.head :: (q.items.map Cell.item ++ [Cell.tail])

/-- Reachable queue states: the cursor, when set, points at a cell of the
chain (extended position at most `items.length + 1`). -/
def Queue.WF (q : Queue) : Bool := q.cur.getD 0 ≤ q.items.length + 1

/-- The recursive closure `last` inside `Queue.add` (queue.go): walk the
cell chain carrying `index`; the new item is spliced in front of the
first cell that is the tail sentinel or whose index equals `ix`.
Returns the extended position of that cell, or `none` when that cell is
the head sentinel itself: there the Go code would run
`q.prev.next = q` with `q.prev = target.prev = nil`, a nil-pointer
dereference. -/
def addFind (ix : Int) : Nat → List Cell → Option Nat
  | _, [] => none
  | index, c :: rest =>
    if c.isLast ∨ (index : Int) = ix then
      if index = 0 then none else some index
    else addFind ix (index + 1) rest

/-- The splice of `Queue.add` (queue.go): a new item is inserted in front
of the cell found by the `last` walk. Splicing in front of extended
position `pos` puts the new song at 0-based item position `pos - 1`; any
node at extended position `≥ pos` (the cursor follows nodes, not ranks)
shifts up by one. `none` models the nil-pointer dereference. -/
def addGo (ix : Int) (s : Song) (q : Queue) : Option Queue :=
  match addFind ix 0 q.cells with
  | none => none
  | some pos =>
    some { items := q.items.take (pos - 1) ++ s :: q.items.drop (pos - 1),
           cur := q.cur.map (fun p => if pos ≤ p then p + 1 else p) }

/-- `Queue.add(ix, s)` entry point: the cursor reset guard
`q.current != nil && q.current.last && q.current.prev == q.root`
(cursor on the tail sentinel of an empty queue) followed by the splice. -/
def Queue.add (ix : Int) (s : Song) (q : Queue) : Option Queue :=
  addGo ix s
    (if q.cur = some (q.items.length + 1) ∧ q.items.length = 0 then
      { q with cur := none }
    else q)

/-- The loop of `Queue.CurrentIndex` (queue.go): `i := -1;
c := q.root.next; for c != nil { if c.first || c.last { return -1 };
i++; if c == q.current { return i }; c = c.next }; return i`.
`pos` is the extended position of `c`; pointer equality
`c == q.current` becomes equality of extended positions. -/
def currentIndexGo (cur : Option Nat) : Int → Nat → List Cell → Int
  | i, _, [] => i
  | i, pos, c :: rest =>
    if c.isFirst ∨ c.isLast then -1
    else if cur = some pos then i + 1
    else currentIndexGo cur (i + 1) (pos + 1) rest

/-- `Queue.CurrentIndex()` from queue.go. -/
def Queue.currentIndex (q : Queue) : Int :=
  currentIndexGo q.cur (-1) 1 (q.items.map Cell.item ++ [Cell.tail])

/-- The loop of `Queue.SetCurrentIndex` (queue.go): starting at
`c := q.root.next` (extended position 1), take at most `steps` forward
steps; upon standing on the tail sentinel, step back once (`c = c.prev`)
and stop. -/
def setCurrentIndexGo (tailPos : Nat) : Nat → Nat → Nat
  | p, 0 => p
  | p, steps + 1 =>
    if p = tailPos then p - 1 else setCurrentIndexGo tailPos (p + 1) steps

/-- `Queue.SetCurrentIndex(i)` from queue.go; the loop
`for n := 0; n < i; n++` runs `i.toNat` times. -/
def Queue.setCurrentIndex (i : Int) (q : Queue) : Queue :=
  { q with cur := some (setCurrentIndexGo (q.items.length + 1) 1 i.toNat) }

end Libym

namespace Libym

theorem addFind_cons (ix : Int) (index : Nat) (c : Cell) (rest : List Cell) :
    addFind ix index (c :: rest) =
      (if c.isLast ∨ (index : Int) = ix then
        (if index = 0 then none else some index)
      else addFind ix (index + 1) rest) := rfl

theorem addFind_items (ix : Int) :
    ∀ (l : List Song) (n : Nat), 1 ≤ n →
      addFind ix n (l.map Cell.item ++ [Cell.tail]) =
        (if (n : Int) ≤ ix ∧ ix ≤ (n : Int) + l.length then some ix.toNat
         else some (n + l.length)) := by
  intro l
  induction l with
  | nil =>
    intro n hn
    have hL : addFind ix n (([] : List Song).map Cell.item ++ [Cell.tail]) = some n := by
      simp only [List.map_nil, List.nil_append]
      rw [addFind_cons, if_pos (Or.inl (by rfl)), if_neg (by omega)]
    rw [hL]
    by_cases hc : (n : Int) ≤ ix ∧ ix ≤ (n : Int) + ([] : List Song).length
    · rw [if_pos hc]
      congr 1
      simp only [List.length_nil, Nat.cast_zero, add_zero] at hc
      omega
    · rw [if_neg hc]
      simp
  | cons s rest ih =>
    intro n hn
    by_cases hix : (n : Int) = ix
    · have hL : addFind ix n ((s :: rest).map Cell.item ++ [Cell.tail]) = some n := by
        simp only [List.map_cons, List.cons_append]
        rw [addFind_cons, if_pos (Or.inr hix), if_neg (by omega)]
      rw [hL, if_pos ?_]
      · congr 1
        omega
      · refine ⟨le_of_eq hix, ?_⟩
        simp only [List.length_cons]
        push_cast
        omega
    · have hL : addFind ix n ((s :: rest).map Cell.item ++ [Cell.tail]) =
          addFind ix (n + 1) (rest.map Cell.item ++ [Cell.tail]) := by
        simp only [List.map_cons, List.cons_append]
        rw [addFind_cons, if_neg (by simp [Cell.isLast, hix])]
      rw [hL, ih (n + 1) (by omega)]
      have hiff : (((n + 1 : Nat) : Int) ≤ ix ∧ ix ≤ ((n + 1 : Nat) : Int) + rest.length) ↔
          ((n : Int) ≤ ix ∧ ix ≤ (n : Int) + ((s :: rest : List Song)).length) := by
        simp only [List.length_cons]
        push_cast
        omega
      by_cases hc : (n : Int) ≤ ix ∧ ix ≤ (n : Int) + ((s :: rest : List Song)).length
      · rw [if_pos (hiff.mpr hc), if_pos hc]
      · rw [if_neg (fun h => hc (hiff.mp h)), if_neg hc]
        congr 1
        simp only [List.length_cons]
        omega

theorem addFind_cells (ix : Int) (q : Queue) :
    addFind ix 0 q.cells =
      (if ix = 0 then none
       else if 1 ≤ ix ∧ ix ≤ (q.items.length : Int) + 1 then some ix.toNat
       else some (q.items.length + 1)) := by
  show addFind ix 0 (Cell.head :: (q.items.map Cell.item ++ [Cell.tail])) = _
  rw [addFind_cons]
  by_cases hz : ix = 0
  · rw [if_pos (Or.inr (by omega)), if_pos rfl, if_pos hz]
  · rw [if_neg (by simp [Cell.isFirst, Cell.isLast]; omega)]
    rw [addFind_items ix q.items 1 (by omega), if_neg hz]
    split_ifs <;>
      first
        | rfl
        | (congr 1; omega)

theorem addGo_items (ix : Int) (s : Song) (q : Queue) :
    (ix = 0 → addGo ix s q = none) ∧
    (ix ≠ 0 → addGo ix s q =
      some { items :=
              (if 1 ≤ ix ∧ ix ≤ (q.items.length : Int) then
                q.items.take (ix.toNat - 1) ++ s :: q.items.drop (ix.toNat - 1)
              else q.items ++ [s]),
             cur := q.cur.map (fun p =>
              if (if 1 ≤ ix ∧ ix ≤ (q.items.length : Int) then ix.toNat
                  else q.items.length + 1) ≤ p then p + 1 else p) }) := by
  constructor
  · intro hz
    unfold addGo
    rw [addFind_cells, if_pos hz]
  · intro hz
    unfold addGo
    rw [addFind_cells, if_neg hz]
    by_cases hc : (1 : Int) ≤ ix ∧ ix ≤ (q.items.length : Int)
    · rw [if_pos (by omega)]
      simp only
      rw [if_pos hc, if_pos hc]
    · by_cases hc2 : (1 : Int) ≤ ix ∧ ix ≤ (q.items.length : Int) + 1
      · have hix : ix = (q.items.length : Int) + 1 := by omega
        rw [if_pos hc2]
        simp only
        rw [if_neg hc, if_neg hc]
        have htn : ix.toNat = q.items.length + 1 := by omega
        rw [htn]
        congr 2
        simp only [Nat.add_sub_cancel]
        rw [List.take_of_length_le (by omega), List.drop_eq_nil_of_le (by omega)]
      · rw [if_neg hc2]
        simp only
        rw [if_neg hc, if_neg hc]
        congr 2
        simp only [Nat.add_sub_cancel]
        rw [List.take_of_length_le (by omega), List.drop_eq_nil_of_le (by omega)]

theorem add_items (ix : Int) (s : Song) (q : Queue) :
    (ix = 0 → q.add ix s = none) ∧
    (ix ≠ 0 → ∃ q2, q.add ix s = some q2 ∧
      q2.items =
        (if 1 ≤ ix ∧ ix ≤ (q.items.length : Int) then
          q.items.take (ix.toNat - 1) ++ s :: q.items.drop (ix.toNat - 1)
        else q.items ++ [s])) := by
  unfold Queue.add
  by_cases hr : q.cur = some (q.items.length + 1) ∧ q.items.length = 0
  · rw [if_pos hr]
    exact ⟨fun hz => (addGo_items ix s _).1 hz,
      fun hz => ⟨_, (addGo_items ix s _).2 hz, rfl⟩⟩
  · rw [if_neg hr]
    exact ⟨fun hz => (addGo_items ix s q).1 hz,
      fun hz => ⟨_, (addGo_items ix s q).2 hz, rfl⟩⟩

theorem currentIndexGo_cons (cur : Option Nat) (i : Int) (pos : Nat)
    (c : Cell) (rest : List Cell) :
    currentIndexGo cur i pos (c :: rest) =
      (if c.isFirst ∨ c.isLast then -1
       else if cur = some pos then i + 1
       else currentIndexGo cur (i + 1) (pos + 1) rest) := rfl

theorem currentIndexGo_miss (cur : Option Nat) :
    ∀ (l : List Song) (i : Int) (pos : Nat),
      (∀ k, cur = some k → k < pos ∨ pos + l.length ≤ k) →
      currentIndexGo cur i pos (l.map Cell.item ++ [Cell.tail]) = -1 := by
  intro l
  induction l with
  | nil =>
    intro i pos _
    simp only [List.map_nil, List.nil_append]
    rw [currentIndexGo_cons, if_pos (Or.inr (by rfl))]
  | cons s rest ih =>
    intro i pos h
    simp only [List.map_cons, List.cons_append]
    rw [currentIndexGo_cons, if_neg (by simp [Cell.isFirst, Cell.isLast])]
    have hne : ¬cur = some pos := by
      intro he
      rcases h pos he with h1 | h1
      · omega
      · simp only [List.length_cons] at h1
        omega
    rw [if_neg hne]
    apply ih
    intro k hk
    rcases h k hk with h1 | h1
    · left
      omega
    · right
      simp only [List.length_cons] at h1
      omega

theorem currentIndexGo_hit (k : Nat) :
    ∀ (l : List Song) (i : Int) (pos : Nat),
      pos ≤ k → k < pos + l.length →
      currentIndexGo (some k) i pos (l.map Cell.item ++ [Cell.tail]) =
        i + 1 + ((k : Int) - pos) := by
  intro l
  induction l with
  | nil =>
    intro i pos h1 h2
    simp only [List.length_nil, Nat.add_zero] at h2
    omega
  | cons s rest ih =>
    intro i pos h1 h2
    simp only [List.map_cons, List.cons_append]
    rw [currentIndexGo_cons, if_neg (by simp [Cell.isFirst, Cell.isLast])]
    by_cases hk : k = pos
    · rw [if_pos (by rw [hk])]
      omega
    · rw [if_neg (by simp; omega)]
      rw [ih (i + 1) (pos + 1) (by omega) (by simp at h2; omega)]
      omega

theorem currentIndex_closed (q : Queue) :
    q.currentIndex =
      (match q.cur with
       | some k => if 1 ≤ k ∧ k ≤ q.items.length then (k : Int) - 1 else -1
       | none => -1) := by
  unfold Queue.currentIndex
  match hc : q.cur with
  | none =>
    simp only
    exact currentIndexGo_miss none q.items (-1) 1 (by intro k hk; cases hk)
  | some k =>
    simp only
    by_cases hk : 1 ≤ k ∧ k ≤ q.items.length
    · rw [if_pos hk]
      rw [currentIndexGo_hit k q.items (-1) 1 hk.1 (by omega)]
      omega
    · rw [if_neg hk]
      apply currentIndexGo_miss
      intro j hj
      have hjk : j = k := by
        injection hj with h
        omega
      subst hjk
      omega

theorem setCurrentIndexGo_closed (tailPos : Nat) :
    ∀ (steps p : Nat), p ≤ tailPos →
      setCurrentIndexGo tailPos p steps =
        (if p + steps ≤ tailPos then p + steps else tailPos - 1) := by
  intro steps
  induction steps with
  | zero =>
    intro p hp
    simp [setCurrentIndexGo, hp]
  | succ m ih =>
    intro p hp
    unfold setCurrentIndexGo
    by_cases he : p = tailPos
    · rw [if_pos he, if_neg (by omega)]
      omega
    · rw [if_neg he, ih (p + 1) (by omega)]
      by_cases hc : p + 1 + m ≤ tailPos
      · rw [if_pos hc, if_pos (by omega)]
        omega
      · rw [if_neg hc, if_neg (by omega)]

end Libym

namespace Libym

/-- C3 counterexample: `Queue.add(0, s)` never completes: the `last` walk
starts at the head sentinel with `index = 0`, matches `index == ix`
immediately, and executes `q.prev.next = q` with
`q.prev = root.prev = nil` - a nil-pointer dereference (modelled as
`none`) - both on an empty queue and on a non-empty one, contradicting
the claim that the operation completes successfully for every integer
index including 0. -/
theorem claim_C3_counterexample :
    Queue.add 0 exA { items := [], cur := none } = none ∧
      Queue.add 0 exA { items := [exB], cur := none } = none := by
  decide

/-- C3 (amended): `Queue.add(ix, s)` panics (nil-pointer dereference,
modelled as `none`) exactly when `ix = 0`. For every other integer index
it completes and returns a well-formed queue: when `1 ≤ ix ≤ length`,
the song is inserted immediately before the `ix`-th (1-based) real item,
i.e. at 0-based position `ix - 1`; when `ix` is negative or exceeds the
length, the song is appended after the last real item. -/
theorem claim_C3 (q : Queue) (s : Song) (ix : Int) :
    (q.add ix s = none ↔ ix = 0) ∧
    (ix ≠ 0 → ∃ q2, q.add ix s = some q2 ∧
      q2.items =
        (if 1 ≤ ix ∧ ix ≤ (q.items.length : Int) then
          q.items.take (ix.toNat - 1) ++ s :: q.items.drop (ix.toNat - 1)
        else q.items ++ [s])) := by
  refine ⟨⟨?_, fun hz => (add_items ix s q).1 hz⟩, (add_items ix s q).2⟩
  intro hnone
  by_contra hz
  rcases (add_items ix s q).2 hz with ⟨q2, hq2, _⟩
  rw [hnone] at hq2
  cases hq2

/-- C3 witness: inserting at index 2 of a two-element queue places the
new song before the second real item. -/
theorem claim_C3_witness :
    ∃ q2, Queue.add 2 exC { items := [exA, exB], cur := none } = some q2 ∧
      q2.items =
        (if 1 ≤ (2 : Int) ∧ (2 : Int) ≤ (([exA, exB] : List Song).length : Int) then
          [exA, exB].take ((2 : Int).toNat - 1) ++ exC :: [exA, exB].drop ((2 : Int).toNat - 1)
        else [exA, exB] ++ [exC]) :=
  (claim_C3 { items := [exA, exB], cur := none } exC 2).2 (by decide)

/-- C8: for every reachable queue state (cursor, when set, points at a
cell of the chain), `CurrentIndex()` returns -1 exactly when the cursor
is unset (`nil`) or rests on the head or tail sentinel, and otherwise
returns the 0-based rank of the cursor's node among the real items. -/
theorem claim_C8 (q : Queue) (hwf : q.WF = true) :
    (q.currentIndex = -1 ↔
      (q.cur = none ∨ q.cur = some 0 ∨ q.cur = some (q.items.length + 1))) ∧
    (∀ k, q.cur = some k → 1 ≤ k → k ≤ q.items.length →
      q.currentIndex = (k : Int) - 1) := by
  have hcl := currentIndex_closed q
  constructor
  · constructor
    · intro h
      rw [hcl] at h
      match hc : q.cur with
      | none => exact Or.inl rfl
      | some k =>
        rw [hc] at h
        simp only at h
        by_cases hk : 1 ≤ k ∧ k ≤ q.items.length
        · rw [if_pos hk] at h
          omega
        · unfold Queue.WF at hwf
          rw [hc] at hwf
          simp only [Option.getD_some, decide_eq_true_eq] at hwf
          right
          rcases Nat.lt_or_ge k 1 with h1 | h1
          · left
            congr 1
            omega
          · right
            congr 1
            omega
    · intro h
      rw [hcl]
      rcases h with h | h | h <;> rw [h]
      · show (if 1 ≤ 0 ∧ 0 ≤ q.items.length then ((0 : Nat) : Int) - 1 else -1) = -1
        rw [if_neg (by omega)]
      · show (if 1 ≤ q.items.length + 1 ∧ q.items.length + 1 ≤ q.items.length then
            ((q.items.length + 1 : Nat) : Int) - 1 else -1) = -1
        rw [if_neg (by omega)]
  · intro k hk h1 h2
    rw [hcl, hk]
    simp only
    rw [if_pos ⟨h1, h2⟩]

/-- C8 witness: a three-element queue with the cursor on the second real
item reports index 1; with the cursor on the tail sentinel it reports
-1. -/
theorem claim_C8_witness :
    Queue.currentIndex { items := [exA, exB, exC], cur := some 2 } = (2 : Int) - 1 :=
  (claim_C8 { items := [exA, exB, exC], cur := some 2 } (by decide)).2 2 rfl
    (by decide) (by decide)

/-- The swap callback `Queue.ShuffleRange` passes to `rand.Shuffle`:
`l[i], l[j] = l[j], l[i]`. Out-of-range indices leave the slice
unchanged (`rand.Shuffle` only produces in-range indices; admitting
arbitrary ones merely enlarges the set of behaviors quantified over). -/
def swapIdx {α : Type} (i j : Nat) (l : List α) : List α :=
  match l[i]?, l[j]? with
  | some a, some b => (l.set i b).set j a
  | _, _ => l

/-- `rand.Shuffle(n, swap)` from math/rand as invoked by `ShuffleRange`:
a Fisher-Yates pass swapping position `i`, for `i` from `n-1` down
to 1, with a drawn position `j`. The process-local random source is
modelled by the list `js` of drawn values, consumed in order; when the
draws run out no further swap happens. -/
def fyGo {α : Type} : Nat → List Nat → List α → List α
  | 0, _, l => l
  | _ + 1, [], l => l
  | i + 1, j :: js, l => fyGo i js (swapIdx (i + 1) j l)

/-- The full Fisher-Yates pass of `rand.Shuffle` over a slice. -/
def fisherYates {α : Type} (js : List Nat) (l : List α) : List α :=
  fyGo (l.length - 1) js l

/-- The traversal loop of `Queue.ShuffleRange` (queue.go), walking the
real items with counter `n` (sentinel cells do not advance `n`; the
head sentinel is visited before any item and initialises the `first`
boundary to extended position 0, passed here as the initial `first`).
At an item with counter `n`: if `n == start-1` the item (extended
position `n+1`) becomes the `first` boundary; else if `n == end+1 &&
end >= 0` the item becomes the `last` boundary and the loop breaks;
else if `n >= start && (n <= end || end < 0)` the item is collected.
Returns the collected songs, the `first` boundary's extended position,
and `some` of the `last` boundary's extended position on a break
(`none` when the loop ran to the tail sentinel, which then serves as
the `last` boundary). -/
def srLoop (start finish : Int) : Nat → List Song → Nat → List Song →
    (List Song × Nat × Option Nat)
  | first, l, _, [] => (l, first, none)
  | first, l, n, s :: rest =>
    if (n : Int) = start - 1 then srLoop start finish (n + 1) l (n + 1) rest
    else if (n : Int) = finish + 1 ∧ 0 ≤ finish then (l, first, some (n + 1))
    else if start ≤ (n : Int) ∧ ((n : Int) ≤ finish ∨ finish < 0) then
      srLoop start finish first (l ++ [s]) (n + 1) rest
    else srLoop start finish first l (n + 1) rest

/-- `Queue.ShuffleRange(start, end)` from queue.go, acting on the item
chain: clamp `start` at 0, traverse to find the boundary cells and
collect the in-range items, shuffle the collected items, and - unless
one or fewer items were collected - re-splice the chain as the prefix
up to the `first` boundary (extended position `fp`, so `items.take fp`),
the shuffled items, and the suffix from the `last` boundary (extended
position `lp`, so `items.drop (lp - 1)`; the tail sentinel when the
loop was not broken, making the suffix empty). The source's
`panic("shuffle failed")` cannot fire on a well-formed chain: `first`
is initialised at the head sentinel and `last` falls back to the tail
sentinel. -/
def shuffleRange (js : List Nat) (start finish : Int) (items : List Song) :
    List Song :=
  match srLoop (if start < 0 then 0 else start) finish 0 [] 0 items with
  | (l, fp, lastBrk) =>
    if (fisherYates js l).length ≤ 1 then items
    else
      items.take fp ++ fisherYates js l ++
        items.drop ((match lastBrk with
          | some p => p
          | none => items.length + 1) - 1)

end Libym

namespace Libym

theorem swapIdx_perm {α : Type} [DecidableEq α] (i j : Nat) (l : List α) :
    (swapIdx i j l).Perm l := by
  unfold swapIdx
  match hi : l[i]?, hj : l[j]? with
  | none, _ => exact List.Perm.refl l
  | some a, none => exact List.Perm.refl l
  | some a, some b =>
    simp only
    rw [List.perm_iff_count]
    intro c
    rcases List.getElem?_eq_some_iff.mp hi with ⟨hilt, hieq⟩
    rcases List.getElem?_eq_some_iff.mp hj with ⟨hjlt, hjeq⟩
    have hjlt2 : j < (l.set i b).length := by
      rw [List.length_set]
      exact hjlt
    rw [List.count_set a c _ j hjlt2, List.count_set b c l i hilt]
    have hgj : (l.set i b)[j] = b := by
      rw [List.getElem_set]
      by_cases hij : i = j
      · rw [if_pos hij]
      · rw [if_neg hij, hjeq]
    rw [hgj, hieq]
    have hcnt : a = c → 0 < List.count c l := fun he =>
      List.count_pos_iff.mpr (by rw [← he, ← hieq]; exact List.getElem_mem hilt)
    by_cases hac : a = c <;> by_cases hbc : b = c
    · simp only [hac, hbc, beq_self_eq_true, if_true]
      have := hcnt hac
      omega
    · have hb : (b == c) = false := beq_eq_false_iff_ne.mpr hbc
      simp only [hac, beq_self_eq_true, if_true, hb, Bool.false_eq_true, if_false]
      have := hcnt hac
      omega
    · have ha : (a == c) = false := beq_eq_false_iff_ne.mpr hac
      simp only [hbc, beq_self_eq_true, if_true, ha, Bool.false_eq_true, if_false]
      omega
    · have ha : (a == c) = false := beq_eq_false_iff_ne.mpr hac
      have hb : (b == c) = false := beq_eq_false_iff_ne.mpr hbc
      simp only [ha, hb, Bool.false_eq_true, if_false]
      omega

theorem fyGo_perm {α : Type} [DecidableEq α] :
    ∀ (i : Nat) (js : List Nat) (l : List α), (fyGo i js l).Perm l := by
  intro i
  induction i with
  | zero => intro js l; exact List.Perm.refl l
  | succ m ih =>
    intro js l
    match js with
    | [] => exact List.Perm.refl l
    | j :: rest =>
      show (fyGo m rest (swapIdx (m + 1) j l)).Perm l
      exact (ih rest (swapIdx (m + 1) j l)).trans (swapIdx_perm (m + 1) j l)

theorem fisherYates_perm {α : Type} [DecidableEq α] (js : List Nat) (l : List α) :
    (fisherYates js l).Perm l :=
  fyGo_perm (l.length - 1) js l

theorem fisherYates_length {α : Type} [DecidableEq α] (js : List Nat) (l : List α) :
    (fisherYates js l).length = l.length :=
  (fisherYates_perm js l).length_eq

theorem fisherYates_short {α : Type} [DecidableEq α] (js : List Nat) (l : List α)
    (h : l.length ≤ 1) : fisherYates js l = l := by
  unfold fisherYates
  interval_cases hl : l.length
  · rfl
  · rfl

theorem srLoop_cons (start finish : Int) (first : Nat) (l : List Song)
    (n : Nat) (s : Song) (rest : List Song) :
    srLoop start finish first l n (s :: rest) =
      (if (n : Int) = start - 1 then srLoop start finish (n + 1) l (n + 1) rest
      else if (n : Int) = finish + 1 ∧ 0 ≤ finish then (l, first, some (n + 1))
      else if start ≤ (n : Int) ∧ ((n : Int) ≤ finish ∨ finish < 0) then
        srLoop start finish first (l ++ [s]) (n + 1) rest
      else srLoop start finish first l (n + 1) rest) := rfl

theorem srLoop_empty_window (s : Nat) (finish : Int)
    (hf0 : 0 ≤ finish) (hfs : finish < (s : Int)) :
    ∀ (rest : List Song) (n first : Nat) (acc : List Song),
      (srLoop (s : Int) finish first acc n rest).1 = acc := by
  intro rest
  induction rest with
  | nil => intro n first acc; rfl
  | cons x rest ih =>
    intro n first acc
    rw [srLoop_cons]
    by_cases h1 : (n : Int) = (s : Int) - 1
    · rw [if_pos h1]
      exact ih (n + 1) (n + 1) acc
    · rw [if_neg h1]
      by_cases h2 : (n : Int) = finish + 1 ∧ 0 ≤ finish
      · rw [if_pos h2]
      · rw [if_neg h2, if_neg (by omega)]
        exact ih (n + 1) first acc

theorem srLoop_collect_neg (s : Nat) (finish : Int) (hf : finish < 0) :
    ∀ (rest : List Song) (n first : Nat) (acc : List Song), s ≤ n →
      srLoop (s : Int) finish first acc n rest = (acc ++ rest, first, none) := by
  intro rest
  induction rest with
  | nil => intro n first acc _; simp [srLoop]
  | cons x rest ih =>
    intro n first acc hn
    rw [srLoop_cons]
    rw [if_neg (by omega), if_neg (by omega), if_pos (by constructor <;> omega)]
    rw [ih (n + 1) first (acc ++ [x]) (by omega)]
    simp

theorem srLoop_collect_pos (s : Nat) (finish : Int) (hf0 : 0 ≤ finish) :
    ∀ (rest : List Song) (n first : Nat) (acc : List Song),
      s ≤ n → (n : Int) ≤ finish + 1 →
      srLoop (s : Int) finish first acc n rest =
        (if rest.length ≤ (finish + 1 - (n : Int)).toNat
         then (acc ++ rest, first, none)
         else (acc ++ rest.take ((finish + 1 - (n : Int)).toNat), first,
           some ((finish + 1).toNat + 1))) := by
  intro rest
  induction rest with
  | nil =>
    intro n first acc _ _
    rw [if_pos (by simp)]
    simp [srLoop]
  | cons x rest ih =>
    intro n first acc hn hn2
    rw [srLoop_cons, if_neg (by omega)]
    by_cases hbrk : (n : Int) = finish + 1
    · rw [if_pos ⟨hbrk, hf0⟩]
      have hk : (finish + 1 - (n : Int)).toNat = 0 := by omega
      rw [if_neg (by rw [hk]; simp)]
      rw [hk, List.take_zero, List.append_nil]
      have hnb : (finish + 1).toNat = n := by omega
      rw [hnb]
    · rw [if_neg (by intro hc; exact hbrk hc.1), if_pos (by constructor <;> omega)]
      rw [ih (n + 1) first (acc ++ [x]) (by omega) (by omega)]
      have hk : (finish + 1 - (n : Int)).toNat = (finish + 1 - ((n : Nat) + 1 : Nat)).toNat + 1 := by
        push_cast
        omega
      by_cases hlen : rest.length ≤ (finish + 1 - ((n : Nat) + 1 : Nat) : Int).toNat
      · rw [if_pos (by push_cast at hlen ⊢; omega), if_pos (by simp only [List.length_cons]; omega)]
        simp
      · rw [if_neg (by push_cast at hlen ⊢; omega),
          if_neg (by simp only [List.length_cons]; omega)]
        rw [hk, List.take_succ_cons]
        simp

theorem srLoop_pre (s : Nat) (finish : Int)
    (hwin : (s : Int) ≤ finish ∨ finish < 0) :
    ∀ (rest : List Song) (n first : Nat) (acc : List Song),
      n < s → s ≤ n + rest.length →
      srLoop (s : Int) finish first acc n rest =
        srLoop (s : Int) finish s acc s (rest.drop (s - n)) := by
  intro rest
  induction rest with
  | nil =>
    intro n first acc h1 h2
    simp only [List.length_nil, Nat.add_zero] at h2
    omega
  | cons x rest ih =>
    intro n first acc h1 h2
    rw [srLoop_cons]
    by_cases hfst : (n : Int) = (s : Int) - 1
    · rw [if_pos hfst]
      have hs : n + 1 = s := by omega
      have hd : (x :: rest).drop (s - n) = rest := by
        have : s - n = 1 := by omega
        rw [this]
        rfl
      rw [hs, hd]
    · have hbrk : ¬((n : Int) = finish + 1 ∧ 0 ≤ finish) := by
        intro hc
        rcases hwin with hw | hw <;> omega
      rw [if_neg hfst, if_neg hbrk, if_neg (by omega)]
      rw [ih (n + 1) first acc (by omega) (by simp at h2 ⊢; omega)]
      have hd : (x :: rest).drop (s - n) = rest.drop (s - (n + 1)) := by
        have hsn : s - n = (s - (n + 1)) + 1 := by omega
        rw [hsn]
        rfl
      rw [hd]

theorem srLoop_pre_out (s : Nat) (finish : Int)
    (hwin : (s : Int) ≤ finish ∨ finish < 0) :
    ∀ (rest : List Song) (n first : Nat) (acc : List Song),
      n + rest.length < s →
      (srLoop (s : Int) finish first acc n rest).1 = acc := by
  intro rest
  induction rest with
  | nil => intro n first acc _; rfl
  | cons x rest ih =>
    intro n first acc h1
    simp only [List.length_cons] at h1
    rw [srLoop_cons]
    have hbrk : ¬((n : Int) = finish + 1 ∧ 0 ≤ finish) := by
      intro hc
      rcases hwin with hw | hw <;> omega
    rw [if_neg (by omega), if_neg hbrk, if_neg (by omega)]
    exact ih (n + 1) first acc (by omega)

/-- The `last`-boundary extended position used by the splice: the broken
position when the loop broke, the tail sentinel otherwise. -/
def lpOf (items : List Song) : Option Nat → Nat
  | some p => p
  | none => items.length + 1

theorem shuffleRange_build (js : List Nat) (start finish : Int)
    (items : List Song) (s2n : Nat)
    (hif : (if start < 0 then 0 else start) = (s2n : Int))
    (l : List Song) (fp : Nat) (lb : Option Nat)
    (hrun : srLoop (s2n : Int) finish 0 [] 0 items = (l, fp, lb)) :
    shuffleRange js start finish items =
      (if (fisherYates js l).length ≤ 1 then items
       else items.take fp ++ fisherYates js l ++
         items.drop (lpOf items lb - 1)) := by
  unfold shuffleRange
  rw [hif]
  conv_lhs => rw [hrun]
  cases lb <;> rfl

theorem split_take_drop (items : List Song) (s2 e3 : Nat)
    (h : s2 ≤ e3 ∨ (items.length ≤ e3 ∧ items.length ≤ s2)) :
    items.take s2 ++ (items.take e3).drop s2 ++ items.drop e3 = items := by
  rcases h with hle | ⟨h1, h2⟩
  · have ht : items.take s2 = (items.take e3).take s2 := by
      rw [List.take_take, Nat.min_eq_left hle]
    rw [ht, List.take_append_drop, List.take_append_drop]
  · rw [List.take_of_length_le h1, List.drop_eq_nil_of_le h2,
      List.drop_eq_nil_of_le h1, List.take_of_length_le h2]
    simp

theorem shuffleRange_main (js : List Nat) (start finish : Int)
    (items : List Song) (s2 e3 : Nat)
    (hif : (if start < 0 then 0 else start) = ((s2 : Nat) : Int))
    (lb : Option Nat)
    (hrun : srLoop ((s2 : Nat) : Int) finish 0 [] 0 items =
      ((items.take e3).drop s2, s2, lb))
    (hdrop : items.drop (lpOf items lb - 1) = items.drop e3)
    (hse : s2 ≤ e3) :
    shuffleRange js start finish items =
        items.take s2 ++ fisherYates js ((items.take e3).drop s2) ++ items.drop e3
      ∧ (fisherYates js ((items.take e3).drop s2)).Perm ((items.take e3).drop s2)
      ∧ items.take s2 ++ (items.take e3).drop s2 ++ items.drop e3 = items := by
  have hsplit := split_take_drop items s2 e3 (Or.inl hse)
  refine ⟨?_, fisherYates_perm js _, hsplit⟩
  rw [shuffleRange_build js start finish items s2 hif _ _ _ hrun]
  by_cases hshort : (fisherYates js ((items.take e3).drop s2)).length ≤ 1
  · rw [if_pos hshort]
    have hlen : ((items.take e3).drop s2).length ≤ 1 := by
      rw [← fisherYates_length js ((items.take e3).drop s2)]
      exact hshort
    rw [fisherYates_short js _ hlen, hsplit]
  · rw [if_neg hshort, hdrop]

theorem shuffleRange_degenerate (js : List Nat) (start finish : Int)
    (items : List Song) (s2 e3 : Nat)
    (hif : (if start < 0 then 0 else start) = ((s2 : Nat) : Int))
    (l : List Song) (fp : Nat) (lb : Option Nat)
    (hrun : srLoop ((s2 : Nat) : Int) finish 0 [] 0 items = (l, fp, lb))
    (hl : l = [])
    (hmidnil : (items.take e3).drop s2 = [])
    (hTD : items.take s2 ++ items.drop e3 = items) :
    shuffleRange js start finish items =
        items.take s2 ++ fisherYates js ((items.take e3).drop s2) ++ items.drop e3
      ∧ (fisherYates js ((items.take e3).drop s2)).Perm ((items.take e3).drop s2)
      ∧ items.take s2 ++ (items.take e3).drop s2 ++ items.drop e3 = items := by
  subst hl
  have hres := shuffleRange_build js start finish items s2 hif [] fp lb hrun
  rw [if_pos (by rw [fisherYates_short js [] (by simp)]; simp)] at hres
  rw [hmidnil, fisherYates_short js [] (by simp)]
  refine ⟨?_, List.Perm.refl [], ?_⟩
  · rw [hres]
    rw [show items.take s2 ++ [] ++ items.drop e3 = items.take s2 ++ items.drop e3 by simp]
    exact hTD.symm
  · rw [show items.take s2 ++ [] ++ items.drop e3 = items.take s2 ++ items.drop e3 by simp]
    exact hTD

end Libym

namespace Libym

/-- C2: for every item chain, all integers start and end, and every
behavior of the random source (the drawn swap positions `js`),
`ShuffleRange(start, end)` leaves the prefix before `max(start,0)` and
the suffix after `end` (the whole tail being in range when `end < 0`)
untouched in place, and replaces the in-range sub-range by a permutation
of itself: the result is exactly untouched-prefix ++ permuted-sub-range
++ untouched-suffix, so the sub-range multiset is unchanged, every real
item outside the range keeps its original position and neighbors, and
the links to the boundary cells - head and tail sentinels included when
the range touches either end - are correctly re-spliced. -/
theorem claim_C2 (js : List Nat) (start finish : Int) (items : List Song)
    (s2 e3 : Nat)
    (hs2 : (s2 : Int) = if start < 0 then 0 else start)
    (he3 : e3 = if finish < 0 then items.length else max (finish + 1).toNat s2) :
    shuffleRange js start finish items =
        items.take s2 ++ fisherYates js ((items.take e3).drop s2) ++ items.drop e3
      ∧ (fisherYates js ((items.take e3).drop s2)).Perm ((items.take e3).drop s2)
      ∧ items.take s2 ++ (items.take e3).drop s2 ++ items.drop e3 = items := by
  have hif := hs2.symm
  by_cases hneg : finish < 0
  · rw [if_pos hneg] at he3
    subst he3
    by_cases hout : items.length < s2
    · rcases htr : srLoop ((s2 : Nat) : Int) finish 0 [] 0 items with ⟨l, fp, lb⟩
      have hl : l = [] := by
        have h1 := srLoop_pre_out s2 finish (Or.inr hneg) items 0 0 [] (by omega)
        rw [htr] at h1
        exact h1
      exact shuffleRange_degenerate js start finish items s2 items.length hif l fp lb
        htr hl
        (by rw [List.take_length]; exact List.drop_eq_nil_of_le (by omega))
        (by rw [List.take_of_length_le (by omega),
              List.drop_eq_nil_of_le (le_refl _)]; simp)
    · have hrun : srLoop ((s2 : Nat) : Int) finish 0 [] 0 items =
          ((items.take items.length).drop s2, s2, none) := by
        rw [List.take_length]
        rcases Nat.eq_zero_or_pos s2 with h0 | hpos
        · subst h0
          rw [srLoop_collect_neg 0 finish hneg items 0 0 [] (le_refl 0)]
          simp
        · rw [srLoop_pre s2 finish (Or.inr hneg) items 0 0 [] hpos (by omega)]
          rw [Nat.sub_zero]
          rw [srLoop_collect_neg s2 finish hneg (items.drop s2) s2 s2 [] (le_refl s2)]
          simp
      exact shuffleRange_main js start finish items s2 items.length hif none hrun
        (by simp [lpOf]) (by omega)
  · rw [if_neg hneg] at he3
    by_cases hW : finish < (s2 : Int)
    · have he3v : e3 = s2 := by
        rw [he3, Nat.max_eq_right (by omega)]
      rw [he3v]
      rcases htr : srLoop ((s2 : Nat) : Int) finish 0 [] 0 items with ⟨l, fp, lb⟩
      have hl : l = [] := by
        have h1 := srLoop_empty_window s2 finish (by omega) hW items 0 0 []
        rw [htr] at h1
        exact h1
      exact shuffleRange_degenerate js start finish items s2 s2 hif l fp lb htr hl
        (List.drop_eq_nil_of_le (by rw [List.length_take]; omega))
        (List.take_append_drop s2 items)
    · have hsf : (s2 : Int) ≤ finish := by omega
      have he3v : e3 = (finish + 1).toNat := by
        rw [he3, Nat.max_eq_left (by omega)]
      rw [he3v]
      by_cases hout : items.length < s2
      · rcases htr : srLoop ((s2 : Nat) : Int) finish 0 [] 0 items with ⟨l, fp, lb⟩
        have hl : l = [] := by
          have h1 := srLoop_pre_out s2 finish (Or.inl hsf) items 0 0 [] (by omega)
          rw [htr] at h1
          exact h1
        exact shuffleRange_degenerate js start finish items s2 (finish + 1).toNat hif
          l fp lb htr hl
          (List.drop_eq_nil_of_le (by rw [List.length_take]; omega))
          (by rw [List.take_of_length_le (by omega),
                List.drop_eq_nil_of_le (by omega)]; simp)
      · have hphase : srLoop ((s2 : Nat) : Int) finish 0 [] 0 items =
            srLoop ((s2 : Nat) : Int) finish s2 [] s2 (items.drop s2) := by
          rcases Nat.eq_zero_or_pos s2 with h0 | hpos
          · subst h0
            rw [List.drop_zero]
          · rw [srLoop_pre s2 finish (Or.inl hsf) items 0 0 [] hpos (by omega)]
            rw [Nat.sub_zero]
        have hcoll := srLoop_collect_pos s2 finish (by omega) (items.drop s2) s2 s2 []
          (le_refl s2) (by omega)
        by_cases hbrk : (items.drop s2).length ≤ (finish + 1 - ((s2 : Nat) : Int)).toNat
        · rw [if_pos hbrk] at hcoll
          have hrun : srLoop ((s2 : Nat) : Int) finish 0 [] 0 items =
              ((items.take (finish + 1).toNat).drop s2, s2, none) := by
            rw [hphase, hcoll]
            rw [List.take_of_length_le (by rw [List.length_drop] at hbrk; omega)]
            simp
          exact shuffleRange_main js start finish items s2 (finish + 1).toNat hif
            none hrun
            (by
              have h1 : items.drop (lpOf items none - 1) = [] := by
                rw [List.drop_eq_nil_of_le]
                simp [lpOf]
              have h2 : items.drop (finish + 1).toNat = [] := by
                rw [List.drop_eq_nil_of_le (by rw [List.length_drop] at hbrk; omega)]
              rw [h1, h2])
            (by omega)
        · rw [if_neg hbrk] at hcoll
          have hrun : srLoop ((s2 : Nat) : Int) finish 0 [] 0 items =
              ((items.take (finish + 1).toNat).drop s2, s2,
                some ((finish + 1).toNat + 1)) := by
            rw [hphase, hcoll]
            rw [List.drop_take]
            simp only [List.nil_append]
            have hk : (finish + 1 - ((s2 : Nat) : Int)).toNat = (finish + 1).toNat - s2 := by
              omega
            rw [hk]
          exact shuffleRange_main js start finish items s2 (finish + 1).toNat hif
            (some ((finish + 1).toNat + 1)) hrun
            (by simp [lpOf])
            (by omega)

/-- C2 witness: shuffling the range [1, 2] of a four-item chain with one
drawn swap leaves the first and last items in place and permutes the
middle two. -/
theorem claim_C2_witness :
    shuffleRange [0] 1 2 [exA, exB, exC, exA] =
        [exA, exB, exC, exA].take 1 ++
          fisherYates [0] (([exA, exB, exC, exA].take 3).drop 1) ++
          [exA, exB, exC, exA].drop 3
      ∧ (fisherYates [0] (([exA, exB, exC, exA].take 3).drop 1)).Perm
          (([exA, exB, exC, exA].take 3).drop 1)
      ∧ [exA, exB, exC, exA].take 1 ++ ([exA, exB, exC, exA].take 3).drop 1 ++
          [exA, exB, exC, exA].drop 3 = [exA, exB, exC, exA] :=
  claim_C2 [0] 1 2 [exA, exB, exC, exA] 1 3 (by decide) (by decide)

/-- Assoc-list model of a Go map insertion `m[k] = v`: replace the value
when the key is present, append otherwise. -/
def mapInsert (m : List (String × Song)) (k : String) (v : Song) :
    List (String × Song) :=
  if m.any (fun kv => kv.1 == k) then
    m.map (fun kv => if kv.1 == k then (k, v) else kv)
  else m ++ [(k, v)]

/-- Assoc-list model of a Go map lookup `v, ok := m[k]`. -/
def mapGet (m : List (String × Song)) (k : String) : Option Song :=
  (m.find? (fun kv => kv.1 == k)).map Prod.snd

/-- A record of the persisted db between the song table and the `eos`
sentinel (store.go): a named playlist with its GlobalID list, or the
reserved-name (`storeQueue`) queue record. -/
inductive Record where
  | playlist (name : String) (gids : List String)
  | queueRec (gids : List String)
deriving Repr, DecidableEq

/-- The structured content of the db file written by `Collection.Save`
(store.go): the song table (each entry serialised as its namespace tag
plus payload, modelled by the `Song` itself), the records in file
order, and the trailing uint32 cursor index. The gzip/binary byte
encoding is not modelled: Save writes and Load reads these fields in
the same fixed order. -/
structure DB where
  songs : List Song
  records : List Record
  cursor : Nat
deriving Repr, DecidableEq

/-- The `Collection` (collection.go): named playlists (a Go map,
modelled as an insertion-ordered association list), the queue, and the
registered unmarshaler namespaces. -/
structure Collection where
  playlists : List (String × List Song)
  q : Queue
  unmarshalers : List String
deriving Repr, DecidableEq

/-- `Collection.clean` (collection.go):
`strings.TrimSpace(strings.ToLower(playlist))`, modelled on the
character list (lower-case every character, then trim leading and
trailing whitespace). -/
def cleanChars (l : List Char) : List Char :=
  (((l.map Char.toLower).dropWhile Char.isWhitespace).reverse.dropWhile
    Char.isWhitespace).reverse

/-- `Collection.clean` lifted to strings. -/
def clean (n : String) : String := String.mk (cleanChars n.data)

/-- `Collection.Create` (collection.go): reject an empty cleaned name or
an existing playlist, otherwise insert a fresh empty playlist. -/
def Collection.create (n : String) (c : Collection) : Except String Collection :=
  if clean n = "" then Except.error "invalid playlist name"
  else if c.playlists.any (fun p => p.1 == clean n) then
    Except.error "playlist already exists"
  else Except.ok { c with playlists := c.playlists ++ [(clean n, [])] }

/-- `Collection.AddSong` as invoked during Load: locate the playlist and
run `Playlist.Add` (the persisted records carry no duplicate GlobalIDs,
so the reappend flag is irrelevant there; false is used). -/
def Collection.addSong (n : String) (s : Song) (c : Collection) :
    Except String Collection :=
  if c.playlists.any (fun p => p.1 == clean n) then
    Except.ok { c with playlists := c.playlists.map (fun p =>
      if p.1 == clean n then (p.1, playlistAdd s false p.2) else p) }
  else Except.error "playlist does not exist"

/-- `Collection.QueueSong` as invoked during Load: append the song after
the last real item of the queue (`Queue.add` with a negative index,
which provably succeeds). -/
def Collection.queueSong (s : Song) (c : Collection) : Collection :=
  { c with q := (c.q.add (-1) s).getD c.q }

/-- The index-building loop of Save: `index[GlobalID(s)] = s` for each
song of a list. -/
def insertAll (m : List (String × Song)) (l : List Song) :
    List (String × Song) :=
  l.foldl (fun m s => mapInsert m (GlobalID s) s) m

/-- The song index Save builds before writing: every playlist song, then
every queue song, keyed by GlobalID. -/
def saveIndex (c : Collection) : List (String × Song) :=
  insertAll (c.playlists.foldl (fun m p => insertAll m p.2) []) c.q.items

/-- All songs the collection stores, playlists first, then the queue -
the order the Save index insertion visits them. -/
def allSongs (c : Collection) : List Song :=
  (c.playlists.map Prod.snd).flatten ++ c.q.items

/-- `Collection.Save` (store.go) as a pure producer of the db content:
the song table from the index, one record per playlist (file order
modelling the map iteration), the queue record, and the cursor written
as `uint32(c.q.CurrentIndex())` (conversion modulo 2^32, so an unset
cursor's -1 becomes 4294967295). -/
def Collection.save (c : Collection) : DB :=
  { songs := (saveIndex c).map Prod.snd,
    records := c.playlists.map (fun p => Record.playlist p.1 (p.2.map GlobalID))
      ++ [Record.queueRec (c.q.items.map GlobalID)],
    cursor := (c.q.currentIndex % (2 ^ 32 : Int)).toNat }

/-- The song-table read loop of `Collection.Load` (store.go): reject a
namespace with no registered unmarshaler, otherwise unmarshal and store
under the song's GlobalID. -/
def loadSongTable (unm : List String) : List Song → List (String × Song) →
    Except String (List (String × Song))
  | [], m => Except.ok m
  | s :: rest, m =>
    if unm.contains s.ns then loadSongTable unm rest (mapInsert m (GlobalID s) s)
    else Except.error ("no unmarshaler for namespace " ++ s.ns)

/-- The loop of `getSongs` inside `Collection.Load` (store.go): resolve
each GlobalID against the song table, collecting resolved songs and one
error message per unresolvable id. -/
def getSongsGo (m : List (String × Song)) :
    List String → List Song → List String → (List Song × List String)
  | [], l, errs => (l, errs)
  | g :: rest, l, errs =>
    match mapGet m g with
    | some song => getSongsGo m rest (l ++ [song]) errs
    | none => getSongsGo m rest l
        (errs ++ ["could not find song with id " ++ g])

/-- `getSongs` of `Collection.Load`: the resolved songs, and - when any
id was unresolvable - the per-record messages joined by newlines as one
combined error. -/
def getSongsRes (m : List (String × Song)) (gids : List String) :
    List Song × Option String :=
  match getSongsGo m gids [] [] with
  | (l, []) => (l, none)
  | (l, errs) => (l, some (String.intercalate "\x0a" errs))

/-- The `AddSong` loop of a playlist record in `Collection.Load`:
short-circuits on the first error. -/
def addSongs (name : String) : List Song → Collection →
    (Collection × Option String)
  | [], c => (c, none)
  | s :: rest, c =>
    match c.addSong name s with
    | Except.error e => (c, some e)
    | Except.ok c1 => addSongs name rest c1

/-- The record loop of `Collection.Load` (store.go): for the queue
record, resolve and queue the songs (a resolution error is returned at
once, queuing nothing); for a playlist record, create the playlist,
resolve, and add the songs (any error is returned at once). -/
def loadRecords (m : List (String × Song)) :
    List Record → Collection → (Collection × Option String)
  | [], c => (c, none)
  | Record.queueRec gids :: rest, c =>
    match getSongsRes m gids with
    | (_, some e) => (c, some e)
    | (l, none) => loadRecords m rest (l.foldl (fun c s => c.queueSong s) c)
  | Record.playlist name gids :: rest, c =>
    match c.create name with
    | Except.error e => (c, some e)
    | Except.ok c1 =>
      match getSongsRes m gids with
      | (_, some e) => (c1, some e)
      | (l, none) =>
        match addSongs name l c1 with
        | (c2, some e) => (c2, some e)
        | (c2, none) => loadRecords m rest c2

/-- What `Collection.Load` finds when opening the db file. -/
inductive LoadInput where
  | missing
  | ioError (e : String)
  | ok (db : DB)
deriving Repr, DecidableEq

/-- `Collection.Load` (store.go): a missing file is a clean empty state;
any other open error is returned; otherwise the song table is read, the
records are processed until the first error, and finally the saved
cursor is restored via `SetCurrentIndex(int(ix))`. -/
def Collection.load (inp : LoadInput) (c : Collection) :
    Collection × Option String :=
  match inp with
  | LoadInput.missing => (c, none)
  | LoadInput.ioError e => (c, some e)
  | LoadInput.ok db =>
    match loadSongTable c.unmarshalers db.songs [] with
    | Except.error e => (c, some e)
    | Except.ok m =>
      match loadRecords m db.records c with
      | (c1, some e) => (c1, some e)
      | (c1, none) =>
        ({ c1 with q := c1.q.setCurrentIndex (db.cursor : Int) }, none)

end Libym

namespace Libym

theorem getSongsGo_spec (m : List (String × Song)) :
    ∀ (gids : List String) (l : List Song) (errs : List String),
      getSongsGo m gids l errs =
        (l ++ gids.filterMap (mapGet m),
         errs ++ (gids.filter (fun g => (mapGet m g).isNone)).map
           (fun g => "could not find song with id " ++ g)) := by
  intro gids
  induction gids with
  | nil => intro l errs; simp [getSongsGo]
  | cons g rest ih =>
    intro l errs
    show (match mapGet m g with
      | some song => getSongsGo m rest (l ++ [song]) errs
      | none => getSongsGo m rest l
          (errs ++ ["could not find song with id " ++ g])) = _
    match hg : mapGet m g with
    | some song =>
      show getSongsGo m rest (l ++ [song]) errs = _
      rw [ih (l ++ [song]) errs]
      simp [List.filterMap_cons, hg, List.filter_cons]
    | none =>
      show getSongsGo m rest l (errs ++ ["could not find song with id " ++ g]) = _
      rw [ih l (errs ++ ["could not find song with id " ++ g])]
      simp [List.filterMap_cons, hg, List.filter_cons]

theorem getSongsRes_spec (m : List (String × Song)) (gids : List String) :
    getSongsRes m gids =
      (gids.filterMap (mapGet m),
       if (gids.filter (fun g => (mapGet m g).isNone)) = [] then none
       else some (String.intercalate "\x0a"
         ((gids.filter (fun g => (mapGet m g).isNone)).map
           (fun g => "could not find song with id " ++ g)))) := by
  unfold getSongsRes
  rw [getSongsGo_spec m gids [] []]
  by_cases hc : (gids.filter (fun g => (mapGet m g).isNone)) = []
  · rw [hc]
    simp
  · rw [if_neg hc]
    have hne : (gids.filter (fun g => (mapGet m g).isNone)).map
        (fun g => "could not find song with id " ++ g) ≠ [] := by
      simp [hc]
    match he : (gids.filter (fun g => (mapGet m g).isNone)).map
        (fun g => "could not find song with id " ++ g) with
    | [] => exact absurd he hne
    | e :: es => simp

theorem loadRecords_queue_cons (m : List (String × Song)) (gids : List String)
    (rest : List Record) (c : Collection) :
    loadRecords m (Record.queueRec gids :: rest) c =
      (match getSongsRes m gids with
       | (_, some e) => (c, some e)
       | (l, none) => loadRecords m rest
           (l.foldl (fun c s => c.queueSong s) c)) := rfl

theorem loadRecords_playlist_cons (m : List (String × Song)) (name : String)
    (gids : List String) (rest : List Record) (c : Collection) :
    loadRecords m (Record.playlist name gids :: rest) c =
      (match c.create name with
       | Except.error e => (c, some e)
       | Except.ok c1 =>
         match getSongsRes m gids with
         | (_, some e) => (c1, some e)
         | (l, none) =>
           match addSongs name l c1 with
           | (c2, some e) => (c2, some e)
           | (c2, none) => loadRecords m rest c2) := rfl

theorem loadRecords_append (m : List (String × Song)) :
    ∀ (pre rest : List Record) (c : Collection),
      loadRecords m (pre ++ rest) c =
        (match loadRecords m pre c with
         | (c1, none) => loadRecords m rest c1
         | (c1, some e) => (c1, some e)) := by
  intro pre
  induction pre with
  | nil => intro rest c; rfl
  | cons r pre ih =>
    intro rest c
    match r with
    | Record.queueRec gids =>
      rw [List.cons_append, loadRecords_queue_cons, loadRecords_queue_cons]
      match hg : getSongsRes m gids with
      | (l, some e) => rfl
      | (l, none) => exact ih rest (l.foldl (fun c s => c.queueSong s) c)
    | Record.playlist name gids =>
      rw [List.cons_append, loadRecords_playlist_cons, loadRecords_playlist_cons]
      match hcr : c.create name with
      | Except.error e => rfl
      | Except.ok c1 =>
        match hg : getSongsRes m gids with
        | (l, some e) => rfl
        | (l, none) =>
          have hsplit : ∀ p : Collection × Option String,
              (match p with
               | (c2, some e) => (c2, some e)
               | (c2, none) => loadRecords m (pre ++ rest) c2) =
              (match (match p with
                | (c2, some e) => (c2, some e)
                | (c2, none) => loadRecords m pre c2) with
               | (c1, none) => loadRecords m rest c1
               | (c1, some e) => (c1, some e)) := by
            intro p
            match p with
            | (c2, some e) => rfl
            | (c2, none) => exact ih rest c2
          exact hsplit (addSongs name l c1)

/-- An initial collection with the youtube unmarshaler registered and no
content, used in concrete instantiations. -/
def exC0 : Collection :=
  { playlists := [], q := { items := [], cur := none }, unmarshalers := ["yt"] }

/-- A db whose playlist record holds one resolvable and one unresolvable
GlobalID, followed by a resolvable queue record. -/
def exDB : DB :=
  { songs := [exA],
    records := [Record.playlist "a" [GlobalID exA, "yt-missing"],
      Record.queueRec [GlobalID exA]],
    cursor := 0 }

end Libym

namespace Libym

/-- C4 counterexample: loading a db whose first playlist record contains
an unresolvable GlobalID aborts the load at that record: the error is
returned, but the record's resolvable song is not added (the playlist
stays empty), and the queue record that follows is never loaded -
contradicting the claim that Load still attempts to load everything
else and aggregates the errors after the full load. -/
theorem claim_C4_counterexample :
    (Collection.load (LoadInput.ok exDB) exC0).2.isSome = true ∧
      (Collection.load (LoadInput.ok exDB) exC0).1.q.items = [] ∧
      (Collection.load (LoadInput.ok exDB) exC0).1.playlists = [("a", [])] := by
  decide

/-- C4 (amended): Load treats a missing db file as a clean empty state
and fails on other I/O errors; within a single playlist or queue record
all unresolvable GlobalIDs are collected and joined into one combined
error; but Load returns that combined error immediately after reading
the offending record: the record's resolvable songs are discarded (a
playlist record leaves its freshly created playlist empty, a queue
record queues nothing) and every later record is not loaded at all. -/
theorem claim_C4 :
    (∀ c : Collection, Collection.load LoadInput.missing c = (c, none)) ∧
    (∀ (c : Collection) (e : String),
      Collection.load (LoadInput.ioError e) c = (c, some e)) ∧
    (∀ (m : List (String × Song)) (gids : List String),
      (getSongsRes m gids).2 =
        (if (gids.filter (fun g => (mapGet m g).isNone)) = [] then none
         else some (String.intercalate "\x0a"
           ((gids.filter (fun g => (mapGet m g).isNone)).map
             (fun g => "could not find song with id " ++ g))))) ∧
    (∀ (m : List (String × Song)) (pre rest : List Record) (gids : List String)
        (c c1 : Collection) (l : List Song) (e : String),
      loadRecords m pre c = (c1, none) →
      getSongsRes m gids = (l, some e) →
      loadRecords m (pre ++ Record.queueRec gids :: rest) c = (c1, some e)) ∧
    (∀ (m : List (String × Song)) (pre rest : List Record) (name : String)
        (gids : List String) (c c1 c2 : Collection) (l : List Song) (e : String),
      loadRecords m pre c = (c1, none) →
      Collection.create name c1 = Except.ok c2 →
      getSongsRes m gids = (l, some e) →
      loadRecords m (pre ++ Record.playlist name gids :: rest) c = (c2, some e)) := by
  refine ⟨fun c => rfl, fun c e => rfl, ?_, ?_, ?_⟩
  · intro m gids
    rw [getSongsRes_spec]
  · intro m pre rest gids c c1 l e hpre hg
    rw [loadRecords_append m pre (Record.queueRec gids :: rest) c, hpre]
    show loadRecords m (Record.queueRec gids :: rest) c1 = (c1, some e)
    rw [loadRecords_queue_cons, hg]
  · intro m pre rest name gids c c1 c2 l e hpre hcr hg
    rw [loadRecords_append m pre (Record.playlist name gids :: rest) c, hpre]
    show loadRecords m (Record.playlist name gids :: rest) c1 = (c2, some e)
    rw [loadRecords_playlist_cons, hcr, hg]

/-- C4 witness: the amended theorem applied to a concrete queue record
with one unresolvable id: the load of that record returns the combined
error and leaves the collection untouched. -/
theorem claim_C4_witness :
    loadRecords [(GlobalID exA, exA)] ([] ++ Record.queueRec ["zz"] :: []) exC0 =
      (exC0, some "could not find song with id zz") :=
  claim_C4.2.2.2.1 [(GlobalID exA, exA)] [] [] ["zz"] exC0 exC0 []
    "could not find song with id zz" rfl (by decide)

/-- The file-system state relevant to `Collection.Save`: the persisted
db at the destination path and the freshly named temporary file
(`TempFile` in download.go appends a timestamp and 32 random bytes, so
no file exists under the temp name beforehand). `none` = file absent. -/
structure FS where
  dest : Option DB
  temp : Option DB
deriving Repr, DecidableEq

/-- Which steps of `Collection.Save` fail: `os.Create` of the temp
file, the gzip/binary encode-and-write closure `do()`, and the final
`os.Rename`. -/
structure SaveOracle where
  createOk : Bool
  encodeOk : Bool
  renameOk : Bool
deriving Repr, DecidableEq

/-- `Collection.Save` (store.go) over the file-system model: create the
temp file (on failure the state is unchanged and the error returned);
run `do()` writing the encoded db (on failure `os.Remove(tmp)` removes
the temp file and the error is returned); `os.Rename` the temp file
onto the destination (on failure the error is returned with the fully
written temp file left behind; on success the destination is replaced
and the temp name gone). -/
def saveFS (o : SaveOracle) (c : Collection) (fs : FS) : FS × Option String :=
  if !o.createOk then (fs, some "create failed")
  else
    if !o.encodeOk then
      ({ fs with temp := none }, some "write failed")
    else
      if !o.renameOk then
        ({ fs with temp := some c.save }, some "rename failed")
      else ({ dest := some c.save, temp := none }, none)

end Libym

namespace Libym

/-- C6: when Save fails at temp-file creation or during the
gzip/binary encoding and writing, the previously persisted db at the
destination is unchanged, the temporary file is absent afterwards, and
the error is propagated; the destination changes only when Save
succeeds, and then it holds exactly the fully written db; on success
the temp file is gone. -/
theorem claim_C6 (o : SaveOracle) (c : Collection) (fs : FS)
    (htmp : fs.temp = none) :
    ((o.createOk = false ∨ o.encodeOk = false) →
      (saveFS o c fs).2.isSome = true ∧ (saveFS o c fs).1.dest = fs.dest ∧
        (saveFS o c fs).1.temp = none) ∧
    ((saveFS o c fs).1.dest ≠ fs.dest →
      (saveFS o c fs).2 = none ∧ (saveFS o c fs).1.dest = some c.save) ∧
    ((saveFS o c fs).2 = none →
      (saveFS o c fs).1.dest = some c.save ∧ (saveFS o c fs).1.temp = none) := by
  rcases o with ⟨co, eo, ro⟩
  cases co <;> cases eo <;> cases ro <;> simp [saveFS, htmp]

/-- C6 witness: a successful save onto an empty file system writes the
encoded db to the destination and leaves no temp file. -/
theorem claim_C6_witness :
    (saveFS { createOk := true, encodeOk := true, renameOk := true } exC0
        { dest := none, temp := none }).1.dest = some (Collection.save exC0) ∧
      (saveFS { createOk := true, encodeOk := true, renameOk := true } exC0
        { dest := none, temp := none }).1.temp = none :=
  (claim_C6 { createOk := true, encodeOk := true, renameOk := true } exC0
    { dest := none, temp := none } rfl).2.2 rfl

/-- `Queue.Current()` (queue.go): default an unset cursor to
`root.next` (extended position 1), return the pointed node and the
updated queue. -/
def Queue.currentQ (q : Queue) : Nat × Queue :=
  match q.cur with
  | none => (1, { q with cur := some 1 })
  | some p => (p, q)

/-- `Queue.Next()` (queue.go): default an unset cursor to `root.next`,
then advance to `current.next` unless that is nil (only the tail
sentinel has a nil next). -/
def Queue.nextQ (q : Queue) : Nat × Queue :=
  match q.cur with
  | none =>
    if 1 = q.items.length + 1 then (1, { q with cur := some 1 })
    else (2, { q with cur := some 2 })
  | some p =>
    if p = q.items.length + 1 then (p, { q with cur := some p })
    else (p + 1, { q with cur := some (p + 1) })

/-- `Player.songErr` (player.go):
`fmt.Errorf("[%s-%s] %s: %w", qi.NS(), qi.ID(), qi.Title(), err)`. -/
def songErrMsg (s : Song) (e : String) : String :=
  "[" ++ s.ns ++ "-" ++ s.id ++ "] " ++ s.title ++ ": " ++ e

theorem currentQ_eq (q : Queue) (p : Nat) (q1 : Queue)
    (h : q.currentQ = (p, q1)) :
    q1.items = q.items ∧ q1.cur = some p ∧
      (q.cur = none ∧ p = 1 ∨ q.cur = some p) := by
  match hq : q.cur with
  | none =>
    unfold Queue.currentQ at h
    rw [hq] at h
    injection h with h1 h2
    subst h1
    subst h2
    exact ⟨rfl, rfl, Or.inl ⟨rfl, rfl⟩⟩
  | some k =>
    unfold Queue.currentQ at h
    rw [hq] at h
    injection h with h1 h2
    subst h1
    subst h2
    exact ⟨rfl, hq, Or.inr rfl⟩

theorem nextQ_eq_of_lt (q : Queue) (p : Nat) (h : q.cur = some p)
    (hne : p ≠ q.items.length + 1) :
    (q.nextQ).2 = { q with cur := some (p + 1) } := by
  unfold Queue.nextQ
  rw [h]
  simp [hne]

/-- The mutable state `Player.play` (player.go) touches: the queue, the
player's current item (extended position), the stopped flag, the
backend's paused property, and the observable collaborator logs - the
errors reported through the ErrorReporter and the tokens passed to
`backend.Play`. -/
structure PState where
  q : Queue
  current : Option Nat
  stopped : Bool
  bPaused : Bool
  errors : List String
  plays : List String

/-- `Player.play` (player.go), with `env` giving the result of
`backend.Play` per token (`none` = success). Mirrors the source: clear
paused state; return if a current item exists; take the queue's current
node; stop on a sentinel (or, defensively, a dangling position - the
lookup of the pointed item fails only on unreachable states); resolve
the song via `File()` and, when not local, `URL()`; on a resolution or
backend error, report `songErr`, advance the queue (`q.Next()`), and
recurse; on success record the invocation and keep the song current.
The recursion terminates because each failing pass moves the cursor one
position toward the tail sentinel. -/
def play (env : String → Option String) (st : PState) : PState :=
  let st1 := if st.stopped || st.bPaused then
      { st with stopped := false, bPaused := false } else st
  if st1.current.isSome then st1
  else
    match hc : st1.q.currentQ with
    | (p, q1) =>
      if hb : p = 0 ∨ p = q1.items.length + 1 then
        { st1 with q := q1, current := none, stopped := true }
      else
        match hs : q1.items[p - 1]? with
        | none => { st1 with q := q1, current := none, stopped := true }
        | some s =>
          match s.fileRes with
          | Except.error e =>
            play env { st1 with q := (q1.nextQ).2, current := none, errors := st1.errors ++ [songErrMsg s e] }
          | Except.ok f =>
            match (if s.isLocal then Except.ok f else s.urlRes : Except String String) with
            | Except.error e =>
              play env { st1 with q := (q1.nextQ).2, current := none, errors := st1.errors ++ [songErrMsg s e] }
            | Except.ok tok =>
              match env tok with
              | some e =>
                play env { st1 with q := (q1.nextQ).2, current := none, errors := st1.errors ++ [songErrMsg s e], plays := st1.plays ++ [tok] }
              | none =>
                { st1 with q := q1, current := some p, plays := st1.plays ++ [tok] }
termination_by st.q.items.length + 2 - st.q.cur.getD 0
decreasing_by
  all_goals
    have hstq : st1.q = st.q := by
      have he : st1 = if (st.stopped || st.bPaused) = true then
          { st with stopped := false, bPaused := false } else st := rfl
      rw [he]
      split <;> rfl
  all_goals
    rcases currentQ_eq st1.q p q1 hc with ⟨hitems, hcur, hbase⟩
  all_goals
    rw [hstq] at hitems hbase
  all_goals
    have hplen : p - 1 < q1.items.length := (List.getElem?_eq_some_iff.mp hs).1
  all_goals
    have hp1 : 1 ≤ p := by omega
  all_goals
    have hple : p ≤ st.q.items.length := by rw [← hitems]; omega
  all_goals
    rw [nextQ_eq_of_lt q1 p hcur (by rw [hitems]; omega)]
  all_goals
    show q1.items.length + 2 - (p + 1) < st.q.items.length + 2 - st.q.cur.getD 0
  all_goals
    rw [hitems]
  all_goals
    rcases hbase with ⟨hn, hp⟩ | hsome
  case _ => rw [hn]; simp only [Option.getD_none]; omega
  case _ => rw [hsome]; simp only [Option.getD_some]; omega
  case _ => rw [hn]; simp only [Option.getD_none]; omega
  case _ => rw [hsome]; simp only [Option.getD_some]; omega
  case _ => rw [hn]; simp only [Option.getD_none]; omega
  case _ => rw [hsome]; simp only [Option.getD_some]; omega

/-- The token `Player.play` hands to `backend.Play` for a song, or the
first resolution error: `File()`, then `URL()` when the song is not
local. -/
def resolveTok (s : Song) : Except String String :=
  match s.fileRes with
  | Except.error e => Except.error e
  | Except.ok f => if s.isLocal then Except.ok f else s.urlRes

/-- How a song fails inside one `play` pass: a resolution error, or the
backend rejecting the resolved token; `none` when the song plays. -/
def failsWith (env : String → Option String) (s : Song) : Option String :=
  match resolveTok s with
  | Except.error e => some e
  | Except.ok tok => env tok

/-- The `backend.Play` invocations a failing pass still performs: none
when resolution already failed, the resolved token when the backend
rejected it. -/
def failPlays (env : String → Option String) (s : Song) : List String :=
  match resolveTok s with
  | Except.error _ => []
  | Except.ok tok =>
    match env tok with
    | some _ => [tok]
    | none => []

theorem play_step (env : String → Option String) (st : PState) (p : Nat)
    (s : Song)
    (hcur : st.q.cur = some p)
    (hstop : st.stopped = false) (hbp : st.bPaused = false)
    (hcurrent : st.current = none)
    (hb : ¬(p = 0 ∨ p = st.q.items.length + 1))
    (hs : st.q.items[p - 1]? = some s) :
    play env st =
      (match resolveTok s with
       | Except.error e =>
         play env { st with
                    q := { st.q with cur := some (p + 1) },
                    current := none,
                    errors := st.errors ++ [songErrMsg s e] }
       | Except.ok tok =>
         match env tok with
         | some e =>
           play env { st with
                      q := { st.q with cur := some (p + 1) },
                      current := none,
                      errors := st.errors ++ [songErrMsg s e],
                      plays := st.plays ++ [tok] }
         | none => { st with current := some p, plays := st.plays ++ [tok] }) := by
  have hcq : st.q.currentQ = (p, st.q) := by
    unfold Queue.currentQ
    rw [hcur]
  have hnext : (st.q.nextQ).2 = { st.q with cur := some (p + 1) } :=
    nextQ_eq_of_lt st.q p hcur (by omega)
  conv_lhs => rw [play]
  rw [hstop, hbp]
  simp only [Bool.or_self, Bool.false_eq_true, if_false]
  rw [hcurrent]
  simp only [Option.isSome_none, Bool.false_eq_true, if_false]
  simp only [hcq]
  rw [dif_neg hb]
  split
  · rename_i heq
    simp only [Bool.or_self, Bool.false_eq_true, if_false, hcq] at heq
    rw [hs] at heq
    cases heq
  · rename_i s2 heq
    simp only [Bool.or_self, Bool.false_eq_true, if_false, hcq] at heq
    rw [hs] at heq
    injection heq with heq2
    subst heq2
    unfold resolveTok
    match hf : s.fileRes with
    | Except.error e =>
      rw [hstop, hbp, hnext]
    | Except.ok f =>
      match hloc : (if s.isLocal then Except.ok f else s.urlRes : Except String String) with
      | Except.error e =>
        rw [hstop, hbp, hnext]
      | Except.ok tok =>
        match he : env tok with
        | some e =>
          rw [hstop, hbp, hnext]
        | none =>
          rw [hstop, hbp]
          simp only [hloc, he]

theorem failsWith_error (env : String → Option String) (s : Song) (e1 : String)
    (h : resolveTok s = Except.error e1) : failsWith env s = some e1 := by
  unfold failsWith
  rw [h]

theorem failsWith_ok (env : String → Option String) (s : Song) (tok : String)
    (h : resolveTok s = Except.ok tok) : failsWith env s = env tok := by
  unfold failsWith
  rw [h]

theorem failPlays_error (env : String → Option String) (s : Song) (e1 : String)
    (h : resolveTok s = Except.error e1) : failPlays env s = [] := by
  unfold failPlays
  rw [h]

theorem failPlays_ok (env : String → Option String) (s : Song) (tok e : String)
    (h : resolveTok s = Except.ok tok) (he : env tok = some e) :
    failPlays env s = [tok] := by
  unfold failPlays
  rw [h]
  simp only [he]

end Libym

namespace Libym

/-- C7: with the queue cursor on a song that fails to resolve (File or
URL error) or whose backend Play call errors, and the following song
resolving and playing successfully, `Player.play` reports exactly one
error (for the failing song, through the ErrorReporter), advances the
queue past it, and terminates with the next song as the player's
current item and `backend.Play` last invoked with that song's resolved
token. Termination for every input is built into the model: `play` is
total because each failing pass moves the cursor toward the tail
sentinel. -/
theorem claim_C7 (env : String → Option String) (st : PState) (k : Nat)
    (s1 s2 : Song) (e : String)
    (hcur : st.q.cur = some k) (hk : 1 ≤ k)
    (hs1 : st.q.items[k - 1]? = some s1)
    (hs2 : st.q.items[k]? = some s2)
    (hcurrent : st.current = none) (hstop : st.stopped = false)
    (hbp : st.bPaused = false)
    (hfail : failsWith env s1 = some e)
    (hok : failsWith env s2 = none) :
    ∃ tok, resolveTok s2 = Except.ok tok ∧
      play env st = { st with
                      q := { st.q with cur := some (k + 1) },
                      current := some (k + 1),
                      errors := st.errors ++ [songErrMsg s1 e],
                      plays := st.plays ++ failPlays env s1 ++ [tok] } := by
  have hk2len : k < st.q.items.length := (List.getElem?_eq_some_iff.mp hs2).1
  have hb1 : ¬(k = 0 ∨ k = st.q.items.length + 1) := by omega
  have hb2 : ¬(k + 1 = 0 ∨ k + 1 = st.q.items.length + 1) := by omega
  have hs2b : st.q.items[k + 1 - 1]? = some s2 := by simpa using hs2
  rcases hrt1 : resolveTok s1 with e1 | tok1
  · have he1 : e1 = e := by
      have h1 := failsWith_error env s1 e1 hrt1
      rw [h1] at hfail
      injection hfail
    subst he1
    have hplay1 : play env st = play env
        { st with
          q := { st.q with cur := some (k + 1) },
          current := none,
          errors := st.errors ++ [songErrMsg s1 e1] } := by
      rw [play_step env st k s1 hcur hstop hbp hcurrent hb1 hs1, hrt1]
    rcases hrt2 : resolveTok s2 with e2 | tok2
    · have h2 := failsWith_error env s2 e2 hrt2
      rw [h2] at hok
      cases hok
    · have henv2 : env tok2 = none := by
        have h2 := failsWith_ok env s2 tok2 hrt2
        rw [h2] at hok
        exact hok
      have hplay2 : play env
          { st with
            q := { st.q with cur := some (k + 1) },
            current := none,
            errors := st.errors ++ [songErrMsg s1 e1] } =
          { st with
            q := { st.q with cur := some (k + 1) },
            current := some (k + 1),
            errors := st.errors ++ [songErrMsg s1 e1],
            plays := st.plays ++ [tok2] } := by
        rw [play_step env
          { st with
            q := { st.q with cur := some (k + 1) },
            current := none,
            errors := st.errors ++ [songErrMsg s1 e1] }
          (k + 1) s2 rfl hstop hbp rfl hb2 hs2b, hrt2]
        simp only [henv2]
      refine ⟨tok2, rfl, ?_⟩
      rw [hplay1, hplay2]
      simp [failPlays_error env s1 e1 hrt1]
  · have henv1 : env tok1 = some e := by
      have h1 := failsWith_ok env s1 tok1 hrt1
      rw [h1] at hfail
      exact hfail
    have hplay1 : play env st = play env
        { st with
          q := { st.q with cur := some (k + 1) },
          current := none,
          errors := st.errors ++ [songErrMsg s1 e],
          plays := st.plays ++ [tok1] } := by
      rw [play_step env st k s1 hcur hstop hbp hcurrent hb1 hs1, hrt1]
      simp only [henv1]
    rcases hrt2 : resolveTok s2 with e2 | tok2
    · have h2 := failsWith_error env s2 e2 hrt2
      rw [h2] at hok
      cases hok
    · have henv2 : env tok2 = none := by
        have h2 := failsWith_ok env s2 tok2 hrt2
        rw [h2] at hok
        exact hok
      have hplay2 : play env
          { st with
            q := { st.q with cur := some (k + 1) },
            current := none,
            errors := st.errors ++ [songErrMsg s1 e],
            plays := st.plays ++ [tok1] } =
          { st with
            q := { st.q with cur := some (k + 1) },
            current := some (k + 1),
            errors := st.errors ++ [songErrMsg s1 e],
            plays := (st.plays ++ [tok1]) ++ [tok2] } := by
        rw [play_step env
          { st with
            q := { st.q with cur := some (k + 1) },
            current := none,
            errors := st.errors ++ [songErrMsg s1 e],
            plays := st.plays ++ [tok1] }
          (k + 1) s2 rfl hstop hbp rfl hb2 hs2b, hrt2]
        simp only [henv2]
      refine ⟨tok2, rfl, ?_⟩
      rw [hplay1, hplay2]
      simp [failPlays_ok env s1 tok1 e hrt1 henv1]

/-- A song whose `File()` resolution fails. -/
def exSongBad : Song :=
  { ns := "yt", id := "bad", title := "bad song", isLocal := true,
    fileRes := Except.error "boom", urlRes := Except.ok "" }

/-- A local song that resolves and plays successfully. -/
def exSongOK : Song :=
  { ns := "yt", id := "ok", title := "ok song", isLocal := true,
    fileRes := Except.ok "file.mp3", urlRes := Except.ok "" }

/-- A player state with the cursor on the failing first song. -/
def exPSt : PState :=
  { q := { items := [exSongBad, exSongOK], cur := some 1 },
    current := none, stopped := false, bPaused := false,
    errors := [], plays := [] }

/-- A backend that accepts every token. -/
def exEnv : String → Option String := fun _ => none

/-- C7 witness: the theorem applied to the concrete two-song queue
[failing, ok]: one error is reported and the second song ends up
current. -/
theorem claim_C7_witness :
    ∃ tok, resolveTok exSongOK = Except.ok tok ∧
      play exEnv exPSt =
        { exPSt with
          q := { exPSt.q with cur := some (1 + 1) },
          current := some (1 + 1),
          errors := exPSt.errors ++ [songErrMsg exSongBad "boom"],
          plays := exPSt.plays ++ failPlays exEnv exSongBad ++ [tok] } :=
  claim_C7 exEnv exPSt 1 exSongBad exSongOK "boom" rfl (by decide) rfl rfl
    rfl rfl rfl rfl rfl

/-- The volume-relevant state of the MPV wrapper (mpv.go): the cached
`state.volume`. Go float64 arithmetic is modelled over the rationals
(so IEEE special values are outside the model). -/
structure MPVVol where
  volume : Rat
deriving Repr, DecidableEq

/-- `MPV.SetVolume` (mpv.go): clamp the request into [0, 1], write
`n*100` to the mpv `volume` property (`setOk` tells whether
`SetPropertyDouble` succeeded), and update the cached volume only on a
successful write. -/
def setVolume (setOk : Bool) (n : Rat) (st : MPVVol) : MPVVol :=
  let n1 := if n < 0 then 0 else n
  let n2 := if n1 > 1 then 1 else n1
  if setOk then { st with volume := n2 } else st

/-- `MPV.IncreaseVolume` (mpv.go): add the delta to the cached volume
and delegate to `SetVolume`. -/
def increaseVolume (setOk : Bool) (d : Rat) (st : MPVVol) : MPVVol :=
  setVolume setOk (st.volume + d) st

end Libym

namespace Libym

/-- C10: starting from a stored volume in [0, 1], every `SetVolume(n)`
with arbitrary n and every `IncreaseVolume(delta)` with arbitrary delta
keeps the stored volume (returned by `Volume()`) in [0, 1]:
out-of-range requests are clamped to 0 or 1 rather than applied or
rejected, and when the backend property write fails the stored volume
is left unchanged. -/
theorem claim_C10 (setOk : Bool) (n d : Rat) (st : MPVVol)
    (h0 : 0 ≤ st.volume) (h1 : st.volume ≤ 1) :
    (0 ≤ (setVolume setOk n st).volume ∧ (setVolume setOk n st).volume ≤ 1) ∧
    (0 ≤ (increaseVolume setOk d st).volume ∧
      (increaseVolume setOk d st).volume ≤ 1) ∧
    (setOk = false → setVolume setOk n st = st ∧ increaseVolume setOk d st = st) ∧
    (setOk = true → (setVolume setOk n st).volume =
      (if n < 0 then 0 else if n > 1 then 1 else n)) := by
  have hclamp : ∀ m : Rat, 0 ≤ (setVolume setOk m st).volume ∧
      (setVolume setOk m st).volume ≤ 1 := by
    intro m
    unfold setVolume
    cases setOk
    · simpa using ⟨h0, h1⟩
    · simp only [if_true]
      split_ifs with hm1 hm2 hm2 <;> constructor <;> linarith
  refine ⟨hclamp n, hclamp (st.volume + d), ?_, ?_⟩
  · intro hok
    subst hok
    constructor
    · unfold setVolume
      simp
    · unfold increaseVolume setVolume
      simp
  · intro hok
    subst hok
    by_cases hm1 : n < 0
    · norm_num [setVolume, hm1]
    · by_cases hm2 : n > 1
      · norm_num [setVolume, hm1, hm2]
      · norm_num [setVolume, hm1, hm2]

/-- C10 witness: clamping an out-of-range request (n = 2) on a
successful write stores exactly 1. -/
theorem claim_C10_witness :
    (setVolume true 2 { volume := 0 }).volume =
      (if (2 : Rat) < 0 then 0 else if (2 : Rat) > 1 then 1 else 2) :=
  (claim_C10 true 2 0 { volume := 0 } (by norm_num) (by norm_num)).2.2.2 rfl

end Libym

namespace Libym

theorem mapGet_cons (kv : String × Song) (m : List (String × Song)) (k : String) :
    mapGet (kv :: m) k = (if kv.1 == k then some kv.2 else mapGet m k) := by
  unfold mapGet
  cases h : (kv.1 == k)
  · rw [List.find?_cons_of_neg _ (by simp [h]), if_neg (by simp [h])]
  · rw [List.find?_cons_of_pos _ (by simp [h]), if_pos (by simp [h])]
    rfl

theorem any_false_get_none (m : List (String × Song)) (k : String)
    (h : m.any (fun kv => kv.1 == k) = false) : mapGet m k = none := by
  induction m with
  | nil => rfl
  | cons kv rest ih =>
    simp only [List.any_cons, Bool.or_eq_false_iff] at h
    rw [mapGet_cons, if_neg (by simp [h.1]), ih h.2]

theorem mapGet_append_single_self (m : List (String × Song)) (k : String)
    (v : Song) (h : mapGet m k = none) : mapGet (m ++ [(k, v)]) k = some v := by
  induction m with
  | nil => simp [mapGet_cons, mapGet]
  | cons kv rest ih =>
    rw [mapGet_cons] at h
    rw [List.cons_append, mapGet_cons]
    by_cases hk : (kv.1 == k) = true
    · rw [if_pos hk] at h
      cases h
    · rw [if_neg hk] at h
      rw [if_neg hk, ih h]

theorem mapGet_append_single_ne (m : List (String × Song)) (k : String)
    (v : Song) (k' : String) (h : k ≠ k') :
    mapGet (m ++ [(k, v)]) k' = mapGet m k' := by
  induction m with
  | nil =>
    show mapGet [(k, v)] k' = none
    rw [mapGet_cons, if_neg (by simp [h])]
    rfl
  | cons kv rest ih =>
    rw [List.cons_append, mapGet_cons, mapGet_cons, ih]

theorem mapGet_map_replace_self (m : List (String × Song)) (k : String)
    (v : Song) (h : m.any (fun kv => kv.1 == k) = true) :
    mapGet (m.map (fun kv => if kv.1 == k then (k, v) else kv)) k = some v := by
  induction m with
  | nil => cases h
  | cons kv rest ih =>
    simp only [List.any_cons, Bool.or_eq_true] at h
    rw [List.map_cons]
    by_cases hk : (kv.1 == k) = true
    · rw [if_pos hk, mapGet_cons, if_pos (by simp)]
    · rw [if_neg hk, mapGet_cons, if_neg hk]
      rcases h with h | h
      · exact absurd h hk
      · exact ih h

theorem mapGet_map_replace_ne (m : List (String × Song)) (k : String)
    (v : Song) (k' : String) (h : k ≠ k') :
    mapGet (m.map (fun kv => if kv.1 == k then (k, v) else kv)) k' =
      mapGet m k' := by
  induction m with
  | nil => rfl
  | cons kv rest ih =>
    rw [List.map_cons]
    by_cases hk : (kv.1 == k) = true
    · have hkk : kv.1 ≠ k' := by
        simp only [beq_iff_eq] at hk
        rw [hk]
        exact h
      rw [if_pos hk, mapGet_cons, mapGet_cons, if_neg (by simp [h]),
        if_neg (by simp [hkk]), ih]
    · rw [if_neg hk, mapGet_cons, mapGet_cons]
      by_cases hk2 : (kv.1 == k') = true
      · rw [if_pos hk2, if_pos hk2]
      · rw [if_neg hk2, if_neg hk2, ih]

theorem mapGet_mapInsert_self (m : List (String × Song)) (k : String) (v : Song) :
    mapGet (mapInsert m k v) k = some v := by
  unfold mapInsert
  by_cases h : m.any (fun kv => kv.1 == k) = true
  · rw [if_pos h]
    exact mapGet_map_replace_self m k v h
  · rw [if_neg h]
    exact mapGet_append_single_self m k v
      (any_false_get_none m k (by revert h; cases m.any (fun kv => kv.1 == k) <;> simp))

theorem mapGet_mapInsert_ne (m : List (String × Song)) (k : String) (v : Song)
    (k' : String) (h : k ≠ k') :
    mapGet (mapInsert m k v) k' = mapGet m k' := by
  unfold mapInsert
  by_cases ha : m.any (fun kv => kv.1 == k) = true
  · rw [if_pos ha]
    exact mapGet_map_replace_ne m k v k' h
  · rw [if_neg ha]
    exact mapGet_append_single_ne m k v k' h

end Libym

namespace Libym

theorem insertAll_append (m : List (String × Song)) (a b : List Song) :
    insertAll m (a ++ b) = insertAll (insertAll m a) b := by
  unfold insertAll
  rw [List.foldl_append]

theorem insertAll_cons (m : List (String × Song)) (s : Song) (l : List Song) :
    insertAll m (s :: l) = insertAll (mapInsert m (GlobalID s) s) l := rfl

theorem insertAll_get_of_not (k : String) :
    ∀ (l : List Song) (m : List (String × Song)),
      (∀ s ∈ l, GlobalID s ≠ k) → mapGet (insertAll m l) k = mapGet m k := by
  intro l
  induction l with
  | nil => intro m _; rfl
  | cons s rest ih =>
    intro m h
    rw [insertAll_cons, ih _ (fun t ht => h t (List.mem_cons_of_mem s ht)),
      mapGet_mapInsert_ne _ _ _ _ (h s (List.mem_cons_self s rest))]

theorem insertAll_get_of_mem (s : Song) :
    ∀ (l : List Song) (m : List (String × Song)), s ∈ l →
      (∀ t ∈ l, GlobalID t = GlobalID s → t = s) →
      mapGet (insertAll m l) (GlobalID s) = some s := by
  intro l
  induction l with
  | nil => intro m hmem _; cases hmem
  | cons t rest ih =>
    intro m hmem huniq
    rw [insertAll_cons]
    by_cases hrest : ∃ u ∈ rest, GlobalID u = GlobalID s
    · rcases hrest with ⟨u, hu, hgu⟩
      have hus : u = s := huniq u (List.mem_cons_of_mem t hu) hgu
      subst hus
      exact ih _ hu (fun x hx hgx => huniq x (List.mem_cons_of_mem t hx) hgx)
    · have hst : t = s := by
        rcases List.mem_cons.mp hmem with h | h
        · exact h.symm
        · exact absurd ⟨s, h, rfl⟩ hrest
      subst hst
      rw [insertAll_get_of_not (GlobalID t) rest _
        (fun u hu hgu => hrest ⟨u, hu, hgu⟩)]
      exact mapGet_mapInsert_self m (GlobalID t) t

theorem mapInsert_mem (m : List (String × Song)) (k : String) (v : Song)
    (kv : String × Song) (h : kv ∈ mapInsert m k v) : kv ∈ m ∨ kv = (k, v) := by
  unfold mapInsert at h
  by_cases ha : m.any (fun kv => kv.1 == k) = true
  · rw [if_pos ha] at h
    rcases List.mem_map.mp h with ⟨kv0, hkv0, heq⟩
    by_cases hk : (kv0.1 == k) = true
    · rw [if_pos hk] at heq
      right
      exact heq.symm
    · rw [if_neg hk] at heq
      left
      rw [← heq]
      exact hkv0
  · rw [if_neg ha] at h
    rcases List.mem_append.mp h with h | h
    · left; exact h
    · right; simpa using h

theorem insertAll_mem : ∀ (l : List Song) (m : List (String × Song))
    (kv : String × Song), kv ∈ insertAll m l → kv ∈ m ∨ kv.2 ∈ l := by
  intro l
  induction l with
  | nil => intro m kv h; left; exact h
  | cons s rest ih =>
    intro m kv h
    rw [insertAll_cons] at h
    rcases ih _ kv h with h2 | h2
    · rcases mapInsert_mem m (GlobalID s) s kv h2 with h3 | h3
      · left; exact h3
      · right
        rw [h3]
        exact List.mem_cons_self s rest
    · right
      exact List.mem_cons_of_mem s h2

theorem mapInsert_keyed (m : List (String × Song)) (k : String) (v : Song)
    (hm : ∀ kv ∈ m, kv.1 = GlobalID kv.2) (hk : k = GlobalID v) :
    ∀ kv ∈ mapInsert m k v, kv.1 = GlobalID kv.2 := by
  intro kv h
  rcases mapInsert_mem m k v kv h with h2 | h2
  · exact hm kv h2
  · rw [h2]
    exact hk

theorem insertAll_keyed : ∀ (l : List Song) (m : List (String × Song)),
    (∀ kv ∈ m, kv.1 = GlobalID kv.2) →
    ∀ kv ∈ insertAll m l, kv.1 = GlobalID kv.2 := by
  intro l
  induction l with
  | nil => intro m hm; exact hm
  | cons s rest ih =>
    intro m hm
    rw [insertAll_cons]
    exact ih _ (mapInsert_keyed m (GlobalID s) s hm rfl)

theorem replace_keys (m : List (String × Song)) (k : String) (v : Song) :
    (m.map (fun kv => if kv.1 == k then (k, v) else kv)).map Prod.fst =
      m.map Prod.fst := by
  induction m with
  | nil => rfl
  | cons kv rest ih =>
    simp only [List.map_cons]
    congr 1
    by_cases hk : (kv.1 == k) = true
    · rw [if_pos hk]
      simp only [beq_iff_eq] at hk
      exact hk.symm
    · rw [if_neg hk]

theorem mapInsert_keys_nodup (m : List (String × Song)) (k : String) (v : Song)
    (h : (m.map Prod.fst).Nodup) :
    ((mapInsert m k v).map Prod.fst).Nodup := by
  unfold mapInsert
  by_cases ha : m.any (fun kv => kv.1 == k) = true
  · rw [if_pos ha, replace_keys]
    exact h
  · rw [if_neg ha, List.map_append]
    refine List.Nodup.append h (by simp) ?_
    intro x hx hxk
    simp only [List.map_cons, List.map_nil, List.mem_singleton] at hxk
    rcases List.mem_map.mp hx with ⟨kv, hkv, hfst⟩
    have : (kv.1 == k) = false := by
      rw [List.any_eq_true] at ha
      cases hb : (kv.1 == k)
      · rfl
      · exact absurd ⟨kv, hkv, hb⟩ ha
    simp only [beq_eq_false_iff_ne] at this
    exact this (hfst.symm ▸ hxk ▸ rfl)

theorem insertAll_keys_nodup : ∀ (l : List Song) (m : List (String × Song)),
    (m.map Prod.fst).Nodup → ((insertAll m l).map Prod.fst).Nodup := by
  intro l
  induction l with
  | nil => intro m h; exact h
  | cons s rest ih =>
    intro m h
    rw [insertAll_cons]
    exact ih _ (mapInsert_keys_nodup m (GlobalID s) s h)

theorem mapInsert_not_mem (m : List (String × Song)) (k : String) (v : Song)
    (h : ∀ p ∈ m, p.1 ≠ k) : mapInsert m k v = m ++ [(k, v)] := by
  unfold mapInsert
  rw [if_neg ?_]
  intro ha
  rcases List.any_eq_true.mp ha with ⟨kv, hkv, hb⟩
  exact h kv hkv (by simpa using hb)

theorem insertAll_rebuild : ∀ (m acc : List (String × Song)),
    (((acc ++ m).map Prod.fst)).Nodup → (∀ kv ∈ m, kv.1 = GlobalID kv.2) →
    insertAll acc (m.map Prod.snd) = acc ++ m := by
  intro m
  induction m with
  | nil => intro acc _ _; simp [insertAll]
  | cons kv rest ih =>
    intro acc hnd hkeyed
    rw [List.map_cons, insertAll_cons]
    have hkv1 : GlobalID kv.2 = kv.1 := (hkeyed kv (List.mem_cons_self kv rest)).symm
    have hnotin : ∀ p ∈ acc, p.1 ≠ GlobalID kv.2 := by
      intro p hp
      rw [hkv1]
      intro hc
      rw [List.map_append, List.nodup_append] at hnd
      exact hnd.2.2 (List.mem_map.mpr ⟨p, hp, rfl⟩) (by rw [hc]; simp)
    rw [mapInsert_not_mem acc (GlobalID kv.2) kv.2 hnotin, hkv1]
    have hrec := ih (acc ++ [(kv.1, kv.2)]) ?_ ?_
    · rw [hrec, List.append_assoc]
      rfl
    · rw [List.append_assoc]
      simpa using hnd
    · intro p hp
      exact hkeyed p (List.mem_cons_of_mem kv hp)

end Libym

namespace Libym

theorem saveIndex_eq (c : Collection) :
    saveIndex c = insertAll [] (allSongs c) := by
  unfold saveIndex allSongs
  rw [insertAll_append]
  congr 1
  have haux : ∀ (pls : List (String × List Song)) (m0 : List (String × Song)),
      pls.foldl (fun m p => insertAll m p.2) m0 =
        insertAll m0 (pls.map Prod.snd).flatten := by
    intro pls
    induction pls with
    | nil => intro m0; rfl
    | cons p rest ih =>
      intro m0
      rw [List.foldl_cons, ih, List.map_cons, List.flatten_cons, insertAll_append]
  exact haux c.playlists []

theorem mapGet_saveIndex (c : Collection) (s : Song) (hs : s ∈ allSongs c)
    (hinj : ∀ t ∈ allSongs c, GlobalID t = GlobalID s → t = s) :
    mapGet (saveIndex c) (GlobalID s) = some s := by
  rw [saveIndex_eq]
  exact insertAll_get_of_mem s (allSongs c) [] hs hinj

theorem loadSongTable_ok (unm : List String) :
    ∀ (songs : List Song) (acc : List (String × Song)),
      (∀ s ∈ songs, unm.contains s.ns = true) →
      loadSongTable unm songs acc = Except.ok (insertAll acc songs) := by
  intro songs
  induction songs with
  | nil => intro acc _; rfl
  | cons s rest ih =>
    intro acc h
    show (if unm.contains s.ns then loadSongTable unm rest
      (mapInsert acc (GlobalID s) s) else _) = _
    rw [if_pos (h s (List.mem_cons_self s rest)),
      ih _ (fun t ht => h t (List.mem_cons_of_mem s ht))]
    rfl

theorem table_eq (c : Collection) (unm : List String)
    (hns : ∀ s ∈ allSongs c, unm.contains s.ns = true) :
    loadSongTable unm ((saveIndex c).map Prod.snd) [] =
      Except.ok (saveIndex c) := by
  rw [loadSongTable_ok unm ((saveIndex c).map Prod.snd) [] ?_]
  · congr 1
    apply insertAll_rebuild (saveIndex c) []
    · rw [List.nil_append]
      rw [saveIndex_eq]
      exact insertAll_keys_nodup (allSongs c) [] (by simp)
    · rw [saveIndex_eq]
      exact insertAll_keyed (allSongs c) [] (by intro kv h; cases h)
  · intro s hsm
    rcases List.mem_map.mp hsm with ⟨kv, hkv, hsnd⟩
    rw [saveIndex_eq] at hkv
    rcases insertAll_mem (allSongs c) [] kv hkv with h | h
    · cases h
    · exact hns s (hsnd ▸ h)

theorem getSongsRes_resolved (M : List (String × Song)) :
    ∀ (l : List Song), (∀ s ∈ l, mapGet M (GlobalID s) = some s) →
      getSongsRes M (l.map GlobalID) = (l, none) := by
  intro l h
  rw [getSongsRes_spec]
  have hfil : (l.map GlobalID).filter (fun g => (mapGet M g).isNone) = [] := by
    rw [List.filter_eq_nil_iff]
    intro g hg
    rcases List.mem_map.mp hg with ⟨s, hs, hgid⟩
    rw [← hgid, h s hs]
    simp
  rw [hfil, if_pos rfl]
  rw [List.filterMap_map]
  congr 1
  have : ∀ (l2 : List Song), (∀ s ∈ l2, mapGet M (GlobalID s) = some s) →
      l2.filterMap (mapGet M ∘ GlobalID) = l2 := by
    intro l2
    induction l2 with
    | nil => intro _; rfl
    | cons s rest ih =>
      intro h2
      rw [List.filterMap_cons]
      have hs := h2 s (List.mem_cons_self s rest)
      simp only [Function.comp_apply, hs]
      rw [ih (fun t ht => h2 t (List.mem_cons_of_mem s ht))]
  exact this l h

end Libym

namespace Libym

theorem add_append_none (items : List Song) (s : Song) :
    Queue.add (-1) s { items := items, cur := none } =
      some { items := items ++ [s], cur := none } := by
  unfold Queue.add
  rw [if_neg (by simp)]
  rw [(addGo_items (-1) s { items := items, cur := none }).2 (by norm_num)]
  congr 1

theorem queueSong_append (cc : Collection) (items : List Song) (s : Song)
    (h : cc.q = { items := items, cur := none }) :
    cc.queueSong s = { cc with q := { items := items ++ [s], cur := none } } := by
  unfold Collection.queueSong
  rw [h, add_append_none]
  rfl

theorem foldQueue : ∀ (l : List Song) (cc : Collection) (items : List Song),
    cc.q = { items := items, cur := none } →
    l.foldl (fun c s => c.queueSong s) cc =
      { cc with q := { items := items ++ l, cur := none } } := by
  intro l
  induction l with
  | nil =>
    intro cc items h
    show cc = _
    rw [List.append_nil, ← h]
  | cons s rest ih =>
    intro cc items h
    rw [List.foldl_cons, queueSong_append cc items s h, ih _ (items ++ [s]) rfl]
    rw [List.append_assoc, List.singleton_append]

theorem create_ok (cc : Collection) (n : String) (hclean : clean n = n)
    (hne : n ≠ "") (hnotin : ∀ p ∈ cc.playlists, p.1 ≠ n) :
    Collection.create n cc =
      Except.ok { cc with playlists := cc.playlists ++ [(n, [])] } := by
  unfold Collection.create
  rw [hclean, if_neg hne, if_neg ?_]
  intro ha
  rcases List.any_eq_true.mp ha with ⟨p, hp, hb⟩
  exact hnotin p hp (by simpa using hb)

theorem addSong_ok (cc : Collection) (n : String) (s : Song)
    (pre post : List (String × List Song)) (cur : List Song)
    (hclean : clean n = n)
    (hpl : cc.playlists = pre ++ (n, cur) :: post)
    (hpre : ∀ p ∈ pre, p.1 ≠ n) (hpost : ∀ p ∈ post, p.1 ≠ n) :
    Collection.addSong n s cc =
      Except.ok { cc with
                  playlists := pre ++ (n, playlistAdd s false cur) :: post } := by
  have hmap : ∀ (l : List (String × List Song)), (∀ p ∈ l, p.1 ≠ n) →
      l.map (fun p => if p.1 == clean n then (p.1, playlistAdd s false p.2) else p)
        = l := by
    intro l hl
    induction l with
    | nil => rfl
    | cons q rest ih =>
      rw [List.map_cons,
        if_neg (by rw [hclean]; simp [hl q (List.mem_cons_self q rest)]),
        ih (fun x hx => hl x (List.mem_cons_of_mem q hx))]
  unfold Collection.addSong
  rw [if_pos ?_]
  · congr 2
    rw [hpl, List.map_append, List.map_cons, hmap pre hpre, hmap post hpost,
      if_pos (by rw [hclean]; simp)]
  · rw [hpl]
    apply List.any_eq_true.mpr
    exact ⟨(n, cur), by simp, by rw [hclean]; simp⟩

theorem addSongs_ok (n : String) (hclean : clean n = n) :
    ∀ (l : List Song) (cc : Collection) (pre post : List (String × List Song))
      (cur : List Song),
      cc.playlists = pre ++ (n, cur) :: post →
      (∀ p ∈ pre, p.1 ≠ n) → (∀ p ∈ post, p.1 ≠ n) →
      ((cur ++ l).map GlobalID).Nodup →
      addSongs n l cc =
        ({ cc with playlists := pre ++ (n, cur ++ l) :: post }, none) := by
  intro l
  induction l with
  | nil =>
    intro cc pre post cur hpl hpre hpost _
    show (cc, none) = _
    rw [List.append_nil, ← hpl]
  | cons s rest ih =>
    intro cc pre post cur hpl hpre hpost hnd
    show (match Collection.addSong n s cc with
      | Except.error e => (cc, some e)
      | Except.ok c1 => addSongs n rest c1) = _
    rw [addSong_ok cc n s pre post cur hclean hpl hpre hpost]
    have hnotmem : GlobalID s ∉ cur.map GlobalID := by
      rw [List.map_append, List.nodup_append] at hnd
      intro hc
      exact hnd.2.2 hc (by simp)
    rw [playlistAdd_not_mem s false cur hnotmem]
    have hrec := ih { cc with playlists := pre ++ (n, cur ++ [s]) :: post }
      pre post (cur ++ [s]) rfl hpre hpost
      (by rw [List.append_assoc, List.singleton_append]; exact hnd)
    show addSongs n rest
        { cc with playlists := pre ++ (n, cur ++ [s]) :: post } = _
    rw [hrec]
    rw [List.append_assoc, List.singleton_append]

end Libym

namespace Libym

theorem loadRecords_playlists (M : List (String × Song)) :
    ∀ (pls : List (String × List Song)) (cc : Collection),
      (∀ p ∈ pls, ∀ s ∈ p.2, mapGet M (GlobalID s) = some s) →
      (∀ p ∈ pls, clean p.1 = p.1 ∧ p.1 ≠ "") →
      (∀ p ∈ pls, (p.2.map GlobalID).Nodup) →
      (∀ p ∈ pls, ∀ q2 ∈ cc.playlists, q2.1 ≠ p.1) →
      (pls.map Prod.fst).Nodup →
      loadRecords M
          (pls.map (fun p => Record.playlist p.1 (p.2.map GlobalID))) cc =
        ({ cc with playlists := cc.playlists ++ pls }, none) := by
  intro pls
  induction pls with
  | nil =>
    intro cc _ _ _ _ _
    show (cc, none) = _
    rw [List.append_nil]
  | cons p rest ih =>
    intro cc h1 h2 h3 h4 h5
    obtain ⟨n, l⟩ := p
    have hp0 : ((n, l) : String × List Song) ∈ (n, l) :: rest :=
      List.mem_cons_self _ _
    have hfresh : ∀ q2 ∈ cc.playlists, q2.1 ≠ n := fun q2 hq => h4 _ hp0 q2 hq
    rw [List.map_cons, loadRecords_playlist_cons,
      create_ok cc n (h2 _ hp0).1 (h2 _ hp0).2 hfresh,
      getSongsRes_resolved M l (h1 _ hp0)]
    have ha := addSongs_ok n (h2 _ hp0).1 l
      { cc with playlists := cc.playlists ++ [(n, [])] }
      cc.playlists [] [] rfl hfresh
      (fun q2 hq => absurd hq (List.not_mem_nil q2))
      (by rw [List.nil_append]; exact h3 _ hp0)
    show (match addSongs n l { cc with playlists := cc.playlists ++ [(n, [])] }
        with
      | (c2, some e) => (c2, some e)
      | (c2, none) =>
          loadRecords M
            (rest.map (fun p : String × List Song =>
              Record.playlist p.1 (p.2.map GlobalID)))
            c2) = _
    rw [ha]
    show loadRecords M
        (rest.map (fun p => Record.playlist p.1 (p.2.map GlobalID)))
        { cc with playlists := cc.playlists ++ [(n, l)] } = _
    have hnotin : n ∉ rest.map Prod.fst := by
      rw [List.map_cons] at h5
      exact (List.nodup_cons.mp h5).1
    rw [ih { cc with playlists := cc.playlists ++ [(n, l)] }
      (fun p hp => h1 p (List.mem_cons_of_mem _ hp))
      (fun p hp => h2 p (List.mem_cons_of_mem _ hp))
      (fun p hp => h3 p (List.mem_cons_of_mem _ hp))
      ?_ (by rw [List.map_cons] at h5; exact h5.of_cons)]
    · rw [List.append_assoc, List.singleton_append]
    · intro p hp q2 hq
      rcases List.mem_append.mp hq with hq | hq
      · exact h4 p (List.mem_cons_of_mem _ hp) q2 hq
      · rcases List.mem_singleton.mp hq with rfl
        exact fun he => hnotin (by
          rw [show n = p.1 from he]
          exact List.mem_map.mpr ⟨p, hp, rfl⟩)

theorem currentIndex_bounds (q : Queue) :
    -1 ≤ q.currentIndex ∧ q.currentIndex < (q.items.length : Int) := by
  rw [currentIndex_closed]
  rcases hq : q.cur with _ | k
  · show -1 ≤ (-1 : Int) ∧ (-1 : Int) < (q.items.length : Int)
    constructor
    · omega
    · omega
  · show -1 ≤ (if 1 ≤ k ∧ k ≤ q.items.length then (k : Int) - 1 else -1) ∧
        (if 1 ≤ k ∧ k ≤ q.items.length then (k : Int) - 1 else -1) <
          (q.items.length : Int)
    split_ifs with h
    · constructor
      · omega
      · omega
    · constructor
      · omega
      · omega

theorem cursor_roundTrip (items : List Song) (ci : Int)
    (hlen : items.length + 1 < 2 ^ 32)
    (hlo : -1 ≤ ci) (hhi : ci < (items.length : Int)) :
    (Queue.setCurrentIndex (((ci % (2 ^ 32 : Int)).toNat : Nat) : Int)
        { items := items, cur := none }).currentIndex =
      (if 0 ≤ ci then ci
       else if items.length = 0 then -1
       else (items.length : Int) - 1) := by
  rw [(by norm_num : ((2 : Nat) ^ 32) = 4294967296)] at hlen
  rw [(by norm_num : ((2 : Int) ^ 32) = 4294967296)]
  have hstep : Queue.setCurrentIndex
      (((ci % (4294967296 : Int)).toNat : Nat) : Int)
      { items := items, cur := none } =
      { items := items,
        cur := some (setCurrentIndexGo (items.length + 1) 1
          ((ci % (4294967296 : Int)).toNat)) } := by
    unfold Queue.setCurrentIndex
    have hT : ((((ci % (4294967296 : Int)).toNat : Nat) : Int)).toNat
        = (ci % (4294967296 : Int)).toNat := by omega
    rw [hT]
  rw [hstep,
    setCurrentIndexGo_closed (items.length + 1)
      ((ci % (4294967296 : Int)).toNat) 1 (by omega)]
  have hcc : ∀ (k : Nat),
      Queue.currentIndex { items := items, cur := some k } =
        (if 1 ≤ k ∧ k ≤ items.length then (k : Int) - 1 else -1) := by
    intro k
    rw [currentIndex_closed]
  rw [hcc]
  by_cases hci : 0 ≤ ci
  · have hmod : ci % (4294967296 : Int) = ci := by omega
    rw [hmod]
    have hc1 : 1 + ci.toNat ≤ items.length + 1 := by omega
    have hc2 : 1 ≤ 1 + ci.toNat ∧ 1 + ci.toNat ≤ items.length := by omega
    rw [if_pos hci, if_pos hc1, if_pos hc2]
    omega
  · have hm1 : ci = -1 := by omega
    subst hm1
    have hmod : ((-1 : Int) % (4294967296 : Int)).toNat = 4294967295 := by
      omega
    rw [hmod, if_neg hci]
    have hcK : ¬ (1 + 4294967295 ≤ items.length + 1) := by omega
    rw [if_neg hcK]
    by_cases h0 : items.length = 0
    · have hcond : ¬ (1 ≤ items.length + 1 - 1 ∧
          items.length + 1 - 1 ≤ items.length) := by omega
      rw [if_pos h0, if_neg hcond]
    · have hcond : 1 ≤ items.length + 1 - 1 ∧
          items.length + 1 - 1 ≤ items.length := by omega
      rw [if_neg h0, if_pos hcond]
      omega

end Libym

namespace Libym

/-- C1 (corrected): for a collection whose songs all have a registered
unmarshaler (and whose reachable-state invariants hold: clean, nonempty,
distinct playlist names; GlobalIDs injective over the stored songs and
duplicate-free within each playlist; fewer than 2^32 - 1 queue items),
Save then Load into a fresh Collection with the same unmarshalers
succeeds and reproduces the playlists (names with their song lists in
order, hence the playlist-name-to-GlobalID sets) and the queue contents
in order; the cursor index is reproduced exactly when it was set
(CurrentIndex >= 0); an unset cursor (CurrentIndex = -1) is NOT
reproduced on a non-empty queue: Save writes uint32(-1) = 4294967295,
and SetCurrentIndex walks to the tail sentinel and steps back once, so
the reloaded CurrentIndex is length - 1 (the last item) instead of
-1. -/
theorem claim_C1 (c fresh : Collection)
    (hfp : fresh.playlists = [])
    (hfq : fresh.q = { items := [], cur := none })
    (hfu : fresh.unmarshalers = c.unmarshalers)
    (hns : ∀ s ∈ allSongs c, c.unmarshalers.contains s.ns = true)
    (hinj : ∀ s ∈ allSongs c, ∀ t ∈ allSongs c,
      GlobalID t = GlobalID s → t = s)
    (hnames : (c.playlists.map Prod.fst).Nodup)
    (hcleanNames : ∀ p ∈ c.playlists, clean p.1 = p.1 ∧ p.1 ≠ "")
    (hpnd : ∀ p ∈ c.playlists, (p.2.map GlobalID).Nodup)
    (hlen : c.q.items.length + 1 < 2 ^ 32) :
    ∃ c2 : Collection,
      Collection.load (LoadInput.ok c.save) fresh = (c2, none) ∧
      c2.playlists = c.playlists ∧
      c2.q.items = c.q.items ∧
      c2.q.currentIndex =
        (if 0 ≤ c.q.currentIndex then c.q.currentIndex
         else if c.q.items.length = 0 then -1
         else (c.q.items.length : Int) - 1) := by
  have hres : ∀ s ∈ allSongs c, mapGet (saveIndex c) (GlobalID s) = some s :=
    fun s hs => mapGet_saveIndex c s hs (hinj s hs)
  have hpls := loadRecords_playlists (saveIndex c) c.playlists fresh
    (fun p hp s hs => hres s (List.mem_append_left _
      (List.mem_flatten.mpr ⟨p.2, List.mem_map.mpr ⟨p, hp, rfl⟩, hs⟩)))
    hcleanNames hpnd
    (fun p hp q2 hq => absurd (hfp ▸ hq) (List.not_mem_nil q2))
    hnames
  have hq1 : ({ fresh with playlists := fresh.playlists ++ c.playlists }
      : Collection).q = { items := [], cur := none } := hfq
  have hqrec : loadRecords (saveIndex c)
      [Record.queueRec (c.q.items.map GlobalID)]
      { fresh with playlists := fresh.playlists ++ c.playlists } =
      ({ playlists := fresh.playlists ++ c.playlists,
         q := { items := [] ++ c.q.items, cur := none },
         unmarshalers := fresh.unmarshalers }, none) := by
    rw [loadRecords_queue_cons,
      getSongsRes_resolved (saveIndex c) c.q.items
        (fun s hs => hres s (List.mem_append_right _ hs))]
    show loadRecords (saveIndex c) []
        (c.q.items.foldl (fun cc s => cc.queueSong s)
          { fresh with playlists := fresh.playlists ++ c.playlists }) = _
    rw [foldQueue c.q.items
      { fresh with playlists := fresh.playlists ++ c.playlists } [] hq1]
    rfl
  have hrecs : loadRecords (saveIndex c)
      (c.playlists.map (fun p => Record.playlist p.1 (p.2.map GlobalID))
        ++ [Record.queueRec (c.q.items.map GlobalID)]) fresh =
      ({ playlists := fresh.playlists ++ c.playlists,
         q := { items := [] ++ c.q.items, cur := none },
         unmarshalers := fresh.unmarshalers }, none) := by
    rw [loadRecords_append, hpls]
    exact hqrec
  have hload : Collection.load (LoadInput.ok c.save) fresh =
      ({ playlists := fresh.playlists ++ c.playlists,
         q := Queue.setCurrentIndex
            ((c.q.currentIndex % (2 ^ 32 : Int)).toNat : Int)
            { items := [] ++ c.q.items, cur := none },
         unmarshalers := fresh.unmarshalers }, none) := by
    show (match loadSongTable fresh.unmarshalers ((saveIndex c).map Prod.snd) []
        with
      | Except.error e => (fresh, some e)
      | Except.ok m =>
        match loadRecords m
            (c.playlists.map (fun p : String × List Song =>
                Record.playlist p.1 (p.2.map GlobalID))
              ++ [Record.queueRec (c.q.items.map GlobalID)]) fresh with
        | (c1, some e) => (c1, some e)
        | (c1, none) =>
          ({ c1 with q := c1.q.setCurrentIndex ((c.q.currentIndex %
              (2 ^ 32 : Int)).toNat : Int) }, none)) = _
    rw [hfu, table_eq c c.unmarshalers hns]
    show (match loadRecords (saveIndex c)
        (c.playlists.map (fun p : String × List Song =>
            Record.playlist p.1 (p.2.map GlobalID))
          ++ [Record.queueRec (c.q.items.map GlobalID)]) fresh with
      | (c1, some e) => (c1, some e)
      | (c1, none) =>
        ({ c1 with q := c1.q.setCurrentIndex ((c.q.currentIndex %
            (2 ^ 32 : Int)).toNat : Int) }, none)) = _
    rw [hrecs, hfu]
  refine ⟨_, hload, ?_, ?_, ?_⟩
  · show fresh.playlists ++ c.playlists = c.playlists
    rw [hfp, List.nil_append]
  · show ([] ++ c.q.items : List Song) = c.q.items
    rw [List.nil_append]
  · show (Queue.setCurrentIndex
        ((c.q.currentIndex % (2 ^ 32 : Int)).toNat : Int)
        { items := [] ++ c.q.items, cur := none }).currentIndex = _
    rw [List.nil_append]
    exact cursor_roundTrip c.q.items c.q.currentIndex hlen
      (currentIndex_bounds c.q).1 (currentIndex_bounds c.q).2

end Libym

namespace Libym

/-- A collection with one queued song and an unset cursor
(CurrentIndex = -1), used to exercise the Save/Load cursor path. -/
def exC1 : Collection :=
  { playlists := [], q := { items := [exA], cur := none },
    unmarshalers := ["yt"] }

/-- C1 counterexample: the unset-cursor case of the round-trip fails.
Before Save the queue `[exA]` has no current song (CurrentIndex = -1);
Save writes the cursor as `uint32(-1)` = 4294967295, and Load's
`SetCurrentIndex` walks that many steps, hits the tail sentinel and
steps back onto the last item, so after the reload CurrentIndex is 0,
not -1. -/
theorem claim_C1_counterexample :
    Queue.currentIndex { items := [exA], cur := none } = -1 ∧
    (Collection.load (LoadInput.ok (Collection.save exC1)) exC0).2 = none ∧
    (Collection.load (LoadInput.ok (Collection.save exC1)) exC0).1.q.currentIndex
      = 0 := by
  have hload : Collection.load (LoadInput.ok (Collection.save exC1)) exC0 =
      ({ playlists := [],
         q := Queue.setCurrentIndex ((4294967295 : Nat) : Int)
           { items := [exA], cur := none },
         unmarshalers := ["yt"] }, none) := rfl
  have hset : Queue.setCurrentIndex ((4294967295 : Nat) : Int)
      { items := [exA], cur := none } = { items := [exA], cur := some 1 } := by
    show ({ items := [exA],
            cur := some (setCurrentIndexGo 2 1
              (((4294967295 : Nat) : Int)).toNat) } : Queue) = _
    rw [setCurrentIndexGo_closed 2 ((((4294967295 : Nat) : Int)).toNat) 1
      (by omega)]
    have hT : (((4294967295 : Nat) : Int)).toNat = 4294967295 := by omega
    rw [hT]
    rfl
  refine ⟨by decide, ?_, ?_⟩
  · rw [hload]
  · rw [hload, hset]
    decide

/-- C1 witness: the corrected round-trip applied to a concrete collection
with one playlist and a set queue cursor: the reload succeeds, the
playlists and queue order are reproduced, and the cursor index is
reported unchanged by CurrentIndex. -/
theorem claim_C1_witness :
    ∃ c2 : Collection,
      Collection.load
          (LoadInput.ok (Collection.save
            { playlists := [("pl", [exA])],
              q := { items := [exB], cur := some 1 },
              unmarshalers := ["yt"] })) exC0 = (c2, none) ∧
      c2.playlists = [("pl", [exA])] ∧
      c2.q.items = [exB] ∧
      c2.q.currentIndex =
        (if 0 ≤ Queue.currentIndex { items := [exB], cur := some 1 } then
          Queue.currentIndex { items := [exB], cur := some 1 }
         else if ([exB] : List Song).length = 0 then -1
         else (([exB] : List Song).length : Int) - 1) :=
  claim_C1
    { playlists := [("pl", [exA])],
      q := { items := [exB], cur := some 1 },
      unmarshalers := ["yt"] } exC0
    rfl rfl rfl (by decide) (by decide) (by decide) (by decide) (by decide)
    (by decide)

end Libym
